import Mathlib

/-!
Verification development for the pipe-o-matic pipeline framework
(`src/lib/pmatic.py`).  The Python code is shallowly embedded: the context
directory is modelled as a finite map from relative-path strings to
filesystem entries together with an inode table (hardlink semantics: the
permission bits and sizes of regular files live on the inode, shared by all
hardlinks), plus the `.pmatic/inode_snapshots` hardlink store.  Paths are
opaque relative-path strings, mirroring the keys of the dictionaries that
`scan_directory` produces.  Fallible operations return `Except String`.
-/

set_option maxRecDepth 8192

namespace Pmatic

/-! ### Association-list helpers -/

def alookup {κ α : Type} [DecidableEq κ] : List (κ × α) → κ → Option α
  | [], _ => none
  | (k, v) :: rest, key => if k = key then some v else alookup rest key

def hasKey {κ α : Type} [DecidableEq κ] (l : List (κ × α)) (k : κ) : Bool :=
  l.any fun p => decide (p.1 = k)

/-- Overwrite-or-append, modelling `os.rename` of a fresh temp file onto a
destination: an existing entry with the key is replaced in place, otherwise
the pair is appended. -/
def upsert {κ α : Type} [DecidableEq κ] : List (κ × α) → κ → α → List (κ × α)
  | [], k, v => [(k, v)]
  | (k', v') :: rest, k, v =>
    if k' = k then (k, v) :: rest else (k', v') :: upsert rest k v

def removeKey {κ α : Type} [DecidableEq κ] (l : List (κ × α)) (k : κ) :
    List (κ × α) :=
  l.filter fun p => decide (p.1 ≠ k)

/-- `sorted(dict.items())` — lexicographic sort on the keys. -/
def sortByKey {α : Type} (l : List (String × α)) : List (String × α) :=
  List.insertionSort (fun a b => a.1 ≤ b.1) l

/-! ### Data model: filesystem state of one context directory -/

/-- The filesystem-object formats decoded by `decode_format` from the
`STAT_TESTS` table. -/
inductive Format where
  | BLK | CHR | DIR | FIFO | LNK | REG | SOCK
deriving DecidableEq, Repr

/-- One value of the dict returned by `scan_directory`:
`(format, mode, size, inode, symlink)`. -/
structure SnapRecord where
  format : Format
  mode : Nat
  size : Nat
  inode : Nat
  symlink : Option String
deriving DecidableEq, Repr

/-- Metadata stored on an inode (shared between hardlinks). -/
structure InodeData where
  format : Format
  size : Nat
  mode : Nat
deriving DecidableEq, Repr

/-- A directory entry of the context directory: a directory, a symbolic
link (target string and link mode), or a hardlink to an inode
(regular/device/fifo/socket files). -/
inductive FSEntry where
  | dir (mode : Nat)
  | symlink (target : String) (mode : Nat)
  | node (ino : Nat)
deriving DecidableEq, Repr

/-- The context directory: visible entries keyed by relative path, the
inode table, and the `.pmatic/inode_snapshots` store (hardlinks named by a
decimal inode number, mapped to the inode they currently reference). -/
structure FS where
  entries : List (String × FSEntry)
  inodes : List (Nat × InodeData)
  snapStore : List (Nat × Nat)
deriving DecidableEq, Repr

def META_DIR_NAME : String := ".pmatic"
def TRASH_DIR_NAME : String := ".trash_cans"

def defaultExcludePaths : List String := [META_DIR_NAME, TRASH_DIR_NAME]

/-- Fuel for symlink chain resolution (the kernel MAXSYMLINKS bound). -/
def symlinkFuel : Nat := 40

/-- `os.path.isdir`: follows symbolic links. -/
def isDirFollow (fs : FS) : Nat → String → Bool
  | 0, _ => false
  | fuel + 1, p =>
    match alookup fs.entries p with
    | some (.dir _) => true
    | some (.symlink t _) => isDirFollow fs fuel t
    | _ => false

/-- `os.path.exists`: follows symbolic links; false on dangling links. -/
def existsFollow (fs : FS) : Nat → String → Bool
  | 0, _ => false
  | fuel + 1, p =>
    match alookup fs.entries p with
    | some (.dir _) => true
    | some (.node _) => true
    | some (.symlink t _) => existsFollow fs fuel t
    | none => false

def path_exists (fs : FS) (p : String) : Bool := existsFollow fs symlinkFuel p

/-- `os.path.lexists`: does not follow the final symlink. -/
def lexists (fs : FS) (p : String) : Bool := (alookup fs.entries p).isSome

/-- `os.walk` classifies an entry into `dir_names` using `os.path.isdir`,
which follows symlinks: a symlink to a directory lands in `dir_names`. -/
def walkIsDir (fs : FS) (e : FSEntry) : Bool :=
  match e with
  | .dir _ => true
  | .symlink t _ => isDirFollow fs symlinkFuel t
  | .node _ => false

/-- `stat_item`: `os.lstat`-based record of one entry.  `size` is reported
for `REG` and `LNK` only (a symlink's size is the length of its target);
`inode` for everything except `DIR` and `LNK`; `symlink` only for `LNK`. -/
def stat_item (fs : FS) (e : FSEntry) : SnapRecord :=
  match e with
  | .dir m => ⟨.DIR, m, 0, 0, none⟩
  | .symlink t m => ⟨.LNK, m, t.length, 0, some t⟩
  | .node i =>
    match alookup fs.inodes i with
    | some d => ⟨d.format, d.mode, if d.format = .REG then d.size else 0, i, none⟩
    | none => ⟨.REG, 0, 0, i, none⟩

/-- `scan_directory`: one record per entry, keyed by relative path.
Entries that `os.walk` reports in `dir_names` go through the directory
branch, which stores `None` in the `symlink` slot and prunes the excluded
top-level names; file entries get the full `stat_item` tuple. -/
def scan_directory (fs : FS) (excl : List String) : List (String × SnapRecord) :=
  fs.entries.filterMap fun p =>
    if walkIsDir fs p.2 then
      if p.1 ∈ excl then none
      else some (p.1, { stat_item fs p.2 with symlink := none })
    else some (p.1, stat_item fs p.2)

/-- `strip_permissions`: drop the `mode` slot, keep
`(format, size, inode, symlink)`; `None` maps to `None`. -/
def strip_permissions :
    Option SnapRecord → Option (Format × Nat × Nat × Option String)
  | none => none
  | some r => some (r.format, r.size, r.inode, r.symlink)

/-- `lchmod`: regular chmod unless the path is a symlink; symlinks are
chmodded only when the host has `os.lchmod` (the `hasLchmod` flag).
A chmod of a hardlink sets the mode stored on its inode. -/
def lchmod (hasLchmod : Bool) (fs : FS) (path : String) (mode : Nat) :
    Except String FS :=
  match alookup fs.entries path with
  | some (.symlink t _) =>
    if hasLchmod then
      .ok { fs with entries := upsert fs.entries path (.symlink t mode) }
    else .ok fs
  | some (.dir _) => .ok { fs with entries := upsert fs.entries path (.dir mode) }
  | some (.node i) =>
    match alookup fs.inodes i with
    | some d => .ok { fs with inodes := upsert fs.inodes i { d with mode := mode } }
    | none => .ok fs
  | none => .error "chmod: no such path"

/-- `os.path.samefile path inode_file`: do the two refer to the same inode. -/
def samefile (fs : FS) (path : String) (ino : Nat) : Bool :=
  match alookup fs.entries path with
  | some (.node i) => decide (i = ino)
  | _ => false

/-! ### create_snapshot -/

/-- The stale-backup cleanup of `create_snapshot`: if a hardlink at
`inode_snapshots/<inode>` exists but no longer references the same inode
as the path, remove it. -/
def staleCleanup (fs : FS) (key : String) (r : SnapRecord) : FS :=
  match alookup fs.snapStore r.inode with
  | some ino =>
    if samefile fs key ino then fs
    else { fs with snapStore := removeKey fs.snapStore r.inode }
  | none => fs

/-- `os.link(path, inode_file)` when the backup file is (still) missing. -/
def makeBackupLink (fsa : FS) (key : String) (r : SnapRecord) : Except String FS :=
  match alookup fsa.snapStore r.inode with
  | some _ => .ok fsa
  | none =>
    match alookup fsa.entries key with
    | some (.node i) => .ok { fsa with snapStore := upsert fsa.snapStore r.inode i }
    | _ => .error "create_snapshot: backup source is not a file"

/-- The backup step of `create_snapshot`'s loop for one record: for formats
other than `DIR` and `LNK`, remove a stale hardlink at
`inode_snapshots/<inode>` (one that no longer references the same inode as
the path) and create the hardlink when missing. -/
def createBackup (fs : FS) (key : String) (r : SnapRecord) : Except String FS :=
  if r.format = .DIR ∨ r.format = .LNK then .ok fs
  else makeBackupLink (staleCleanup fs key r) key r

/-- One iteration of `create_snapshot`'s loop: assert the path exists,
back up the inode, and clear the write bits (`mode & 0o7555`) of regular
files. -/
def createStep (hasLchmod : Bool) (fs : FS) (kr : String × SnapRecord) :
    Except String FS :=
  if ¬ path_exists fs kr.1 then .error "create_snapshot: path does not exist"
  else
    match createBackup fs kr.1 kr.2 with
    | .error e => .error e
    | .ok fs1 =>
      if kr.2.format = .REG then lchmod hasLchmod fs1 kr.1 (kr.2.mode &&& 0o7555)
      else .ok fs1

def createLoop (hasLchmod : Bool) : FS → List (String × SnapRecord) → Except String FS
  | fs, [] => .ok fs
  | fs, kr :: rest =>
    match createStep hasLchmod fs kr with
    | .error e => .error e
    | .ok fs1 => createLoop hasLchmod fs1 rest

/-- `create_snapshot`: scan first (so the returned map holds the
pre-masking modes), then back up inodes and strip write permissions. -/
def create_snapshot (hasLchmod : Bool) (fs : FS) :
    Except String (FS × List (String × SnapRecord)) :=
  match createLoop hasLchmod fs (scan_directory fs defaultExcludePaths) with
  | .error e => .error e
  | .ok fs1 => .ok (fs1, scan_directory fs defaultExcludePaths)

/-! ### restore_snapshot -/

/-- `TrashCan.trash`: the entry disappears from the context directory (it
is moved under `.trash_cans/<timestamp>/`, which every scan excludes). -/
def trashItem (fs : FS) (key : String) : FS :=
  { fs with entries := removeKey fs.entries key }

/-- Phase 1 of `restore_snapshot`: walk the (pre-computed, key-sorted)
current scan; any record whose permission-stripped tuple differs from the
snapshot's record at the same key is moved to the trash can. -/
def phase1Loop (snap : List (String × SnapRecord)) :
    FS → List String → List (String × SnapRecord) → FS × List String
  | fs, trashed, [] => (fs, trashed)
  | fs, trashed, (key, record) :: rest =>
    if strip_permissions (some record) ≠ strip_permissions (alookup snap key) then
      if lexists fs key then
        phase1Loop snap (trashItem fs key) (trashed ++ [key]) rest
      else phase1Loop snap fs trashed rest
    else phase1Loop snap fs trashed rest

def phase1 (snap : List (String × SnapRecord)) (fs : FS) : FS × List String :=
  phase1Loop snap fs [] (sortByKey (scan_directory fs defaultExcludePaths))

/-- The recreation part of one phase-2 step of `restore_snapshot`: when
`os.path.exists` (symlink-following!) is false, recreate the entry — a
`mkdir` for `DIR`, `symlink` for `LNK`, a hardlink from
`inode_snapshots/<inode>` otherwise; each creation fails if something
still sits at the path (`lexists`). -/
def phase2create (fs : FS) (key : String) (r : SnapRecord) : Except String FS :=
  if path_exists fs key then .ok fs
  else
    match r.format with
    | .DIR =>
      if lexists fs key then .error "mkdir: path in the way"
      else .ok { fs with entries := upsert fs.entries key (.dir 511) }
    | .LNK =>
      match r.symlink with
      | none => .error "symlink: record has no target"
      | some t =>
        if lexists fs key then .error "symlink: path in the way"
        else .ok { fs with entries := upsert fs.entries key (.symlink t 511) }
    | _ =>
      match alookup fs.snapStore r.inode with
      | none => .error "link: backup file missing"
      | some ino =>
        if lexists fs key then .error "link: path in the way"
        else .ok { fs with entries := upsert fs.entries key (.node ino) }

/-- One phase-2 step: the conditional recreation, then the recorded mode
re-applied unconditionally via `lchmod`. -/
def phase2step (hasLchmod : Bool) (fs : FS) (kr : String × SnapRecord) :
    Except String FS :=
  match phase2create fs kr.1 kr.2 with
  | .error e => .error e
  | .ok fs1 => lchmod hasLchmod fs1 kr.1 kr.2.mode

def phase2Loop (hasLchmod : Bool) : FS → List (String × SnapRecord) → Except String FS
  | fs, [] => .ok fs
  | fs, kr :: rest =>
    match phase2step hasLchmod fs kr with
    | .error e => .error e
    | .ok fs1 => phase2Loop hasLchmod fs1 rest

/-- `restore_snapshot`: delete divergent entries (phase 1, lexicographic
key order), then recreate missing entries and re-apply recorded modes
(phase 2, lexicographic key order).  Also returns the list of keys moved
to the trash can, in the order they were moved. -/
def restore_snapshot (hasLchmod : Bool) (snap : List (String × SnapRecord))
    (fs : FS) : Except String (FS × List String) :=
  match phase2Loop hasLchmod (phase1 snap fs).1 (sortByKey snap) with
  | .error e => .error e
  | .ok fs2 => .ok (fs2, (phase1 snap fs).2)

/-! ### Event log -/

/-- The `EVENT_TYPES` of the event log. -/
inductive What where
  | started | finished | failed | reverted
deriving DecidableEq, Repr

def whatStr : What → String
  | .started => "started"
  | .finished => "finished"
  | .failed => "failed"
  | .reverted => "reverted"

/-- One event of the log (`Event.__init__` plus the keyword payloads used
by the recorders: the embedded snapshot of `started` events, and the
`exit_code` / `exception` payloads of `failed` events). -/
structure Event where
  id : String
  pipeline_name : String
  what : What
  parent_event_id : Option String
  snapshot : Option (List (String × SnapRecord)) := none
  exit_code : Option Int := none
  exception : Option String := none
deriving DecidableEq, Repr

/-- The on-disk and in-memory state of an `EventLog`: whether the `db/`
directory exists, the event files in `db/` keyed by event id, the `head`
file (`none` = file absent, `some v` = file whose decoded value is `v`,
which may itself be null), and the in-memory `event_data` cache. -/
structure LogState where
  logExists : Bool
  db : List (String × Event)
  head : Option (Option String)
  cache : Option (List Event)
deriving DecidableEq, Repr

/-- The whole world an engine run touches: the event log and the context
directory contents. -/
structure World where
  log : LogState
  fs : FS
deriving DecidableEq, Repr

/-- Follow `parent_event_id` pointers from an event id, loading each event
from `db/`.  Fuel bounds the walk; a cyclic chain (which would loop forever
in the Python) is reported as an error. -/
def readChain (db : List (String × Event)) : Option String → Nat → Except String (List Event)
  | none, _ => .ok []
  | some _, 0 => .error "event chain does not terminate"
  | some i, fuel + 1 =>
    match alookup db i with
    | none => .error ("missing event " ++ i)
    | some ev =>
      match readChain db ev.parent_event_id fuel with
      | .error e => .error e
      | .ok rest => .ok (ev :: rest)

/-- `EventLog.read_log`: clear the cache; when the log and the head file
exist, rebuild the newest-first event chain from the head pointer. -/
def read_log (st : LogState) : Except String LogState :=
  if st.logExists then
    match st.head with
    | none => .ok { st with cache := none }
    | some hv =>
      match readChain st.db hv (st.db.length + 1) with
      | .error e => .error e
      | .ok chain => .ok { st with cache := some chain }
  else .ok { st with cache := none }

/-- Python truthiness of `self.event_data`: `None` and `[]` are falsy. -/
def cacheFalsy (st : LogState) : Bool :=
  match st.cache with
  | none => true
  | some [] => true
  | some (_ :: _) => false

/-- `EventLog.get_status`: `never_run` without a log or with an empty
chain, otherwise the newest event's `what` verbatim. -/
def get_status (st : LogState) : Except String String :=
  if st.logExists then
    match (if cacheFalsy st then read_log st else .ok st) with
    | .error e => .error e
    | .ok st1 =>
      match st1.cache with
      | some (e :: _) => .ok (whatStr e.what)
      | _ => .ok "never_run"
  else .ok "never_run"

/-- `EventLog.get_current_pipeline_name`. -/
def get_current_pipeline_name (st : LogState) : Except String (Option String) :=
  if st.logExists then
    match (if cacheFalsy st then read_log st else .ok st) with
    | .error e => .error e
    | .ok st1 =>
      match st1.cache with
      | some (e :: _) => .ok (some e.pipeline_name)
      | _ => .ok none
  else .ok none

/-- `EventLog.ensure_log_exists`. -/
def ensure_log_exists (st : LogState) : LogState := { st with logExists := true }

/-- The parent id `post_event` chooses: the id of the newest cached event,
or null when the cache is `None` or empty. -/
def next_parent (st : LogState) : Option String :=
  match st.cache.getD [] with
  | e :: _ => some e.id
  | [] => none

/-- The event `post_event` constructs. -/
def mkEvent (st : LogState) (pname : String) (what : What) (id : String)
    (snap : Option (List (String × SnapRecord))) (ec : Option Int)
    (exc : Option String) : Event :=
  { id := id, pipeline_name := pname, what := what, parent_event_id := next_parent st,
    snapshot := snap, exit_code := ec, exception := exc }

/-- `EventLog.post_event`: build the event with the cached head as parent
(or null), write it to `db/` (temp file + atomic rename, hence `upsert`),
prepend it to the cache, and point `head` at it.  The fresh id produced by
`gen_uuid_str` is a parameter. -/
def post_event (st : LogState) (pname : String) (what : What) (id : String)
    (snap : Option (List (String × SnapRecord))) (ec : Option Int)
    (exc : Option String) : LogState :=
  let ev : Event := mkEvent st pname what id snap ec exc
  { st with
    db := upsert st.db id ev
    head := some (some id)
    cache := some (ev :: st.cache.getD []) }

/-- `EventLog.save_new_head` applied on top of a state. -/
def save_new_head (st : LogState) (v : Option String) : LogState :=
  { st with head := some v }

def record_pipeline_finished (st : LogState) (pname : String) (id : String) : LogState :=
  post_event (ensure_log_exists st) pname .finished id none none none

def record_pipeline_failed_code (st : LogState) (pname : String) (id : String)
    (c : Int) : LogState :=
  post_event (ensure_log_exists st) pname .failed id none (some c) none

def record_pipeline_failed_exc (st : LogState) (pname : String) (id : String)
    (m : String) : LogState :=
  post_event (ensure_log_exists st) pname .failed id none none (some m)

/-- `EventLog.record_pipeline_reverted`: post a `reverted` event, then
overwrite the head file with the caller-supplied id. -/
def record_pipeline_reverted (st : LogState) (pname : String) (id : String)
    (newHead : Option String) : LogState :=
  save_new_head (post_event (ensure_log_exists st) pname .reverted id none none none) newHead

/-- The `pipeline_name` of the newest cached event, or the empty string
(a falsy value, standing for Python None) when the chain is empty. -/
def current_name (chain : List Event) : String :=
  (chain.head?.map (·.pipeline_name)).getD ""

/-- `EventLog.revert_one`: re-read the log, locate the newest `started`
event (asserting one exists and belongs to the current pipeline), restore
its embedded snapshot, record a `reverted` event whose saved head is the
`started` event's parent, and re-read the log.  Failed Python `assert`s
and missing attributes surface as errors.  `freshId` stands for the UUID
of the new event; `hasLchmod` is the host's `os.lchmod` availability. -/
def revert_one (hasLchmod : Bool) (w : World) (freshId : String) :
    Except String (World × List String) :=
  match read_log w.log with
  | .error e => .error e
  | .ok log1 =>
    if current_name (log1.cache.getD []) = "" then .error "revert_one: no current pipeline"
    else
      match (log1.cache.getD []).find? (fun e => decide (e.what = .started)) with
      | none => .error "revert_one: no started event in the chain"
      | some sev =>
        if sev.pipeline_name ≠ current_name (log1.cache.getD []) then
          .error "revert_one: pipeline mismatch"
        else
          match sev.snapshot with
          | none => .error "revert_one: started event carries no snapshot"
          | some snap =>
            match restore_snapshot hasLchmod snap w.fs with
            | .error e => .error e
            | .ok (fs2, trashed) =>
              match read_log (record_pipeline_reverted log1
                  (current_name (log1.cache.getD [])) freshId sev.parent_event_id) with
              | .error e => .error e
              | .ok log3 => .ok (⟨log3, fs2⟩, trashed)

/-! ### Dependency resolver and engine -/

inductive DepKind where
  | directory | file | executable | link
deriving DecidableEq, Repr

/-- A dependency triple `(name, version, dependency_type)`. -/
abbrev Dep := String × String × DepKind

/-- The three-way categorization computed in `PipelineEngine.run`:
`unlisted`, then `missing` among the listed, then `bad_type` among the
listed-and-existing.  The three predicates model `DependencyFinder`'s
`check_listed` / `check_exists` / `check_type`. -/
def depPartition (deps : Finset Dep) (listed exs ty : Dep → Bool) :
    Finset Dep × Finset Dep × Finset Dep :=
  let unlisted := deps.filter fun d => listed d = false
  let missing := (deps \ unlisted).filter fun d => exs d = false
  let bad_type := ((deps \ unlisted) \ missing).filter fun d => ty d = false
  (unlisted, missing, bad_type)

/-- Python `repr` of an optional string. -/
def pyRepr : Option String → String
  | none => "None"
  | some s => "\x27" ++ s ++ "\x27"

/-- The error taxonomy of a run. -/
inductive RunErr where
  | stateErr (msg : String)
  | depErr (unlisted missing bad_type : Finset Dep)
  | snapErr (msg : String)
  | osErr (msg : String)
  | exitCodeErr (code : Int) (msg : String)
  | logErr (msg : String)
deriving DecidableEq

/-- A loaded `SingleTaskPipeline` (the pipeline document fields the
executor reads). -/
structure SingleTaskPipeline where
  pipeline_name : String
  executable : String
  version : String
  arguments : List String := []
deriving DecidableEq, Repr

def get_dependencies (p : SingleTaskPipeline) : Finset Dep :=
  {(p.executable, p.version, DepKind.executable)}

/-- `SingleTaskPipeline.implement_run`: record `started` (which snapshots
the context first — a snapshot failure propagates before any event is
posted), then run the child.  `spawn` models the outcome of the `try`
block: `.error msg` is an exception raised while opening files, launching
or waiting (caught and re-raised), `.ok code` is the child's exit code.
`id1`/`id2` stand for the fresh UUIDs of the posted events. -/
def implement_run (w : World) (p : SingleTaskPipeline) (execPath : String)
    (hasLchmod : Bool) (spawn : Except String Int) (id1 id2 : String) :
    World × Except RunErr Unit :=
  let log0 := ensure_log_exists w.log
  match create_snapshot hasLchmod w.fs with
  | .error e => (⟨log0, w.fs⟩, .error (.snapErr e))
  | .ok (fs1, snap) =>
    let log1 := post_event log0 p.pipeline_name .started id1 (some snap) none none
    match spawn with
    | .error msg =>
      (⟨record_pipeline_failed_exc log1 p.pipeline_name id2 msg, fs1⟩,
       .error (.osErr msg))
    | .ok code =>
      if code = 0 then
        (⟨record_pipeline_finished log1 p.pipeline_name id2, fs1⟩, .ok ())
      else
        (⟨record_pipeline_failed_code log1 p.pipeline_name id2 code, fs1⟩,
         .error (.exitCodeErr code ("exit code from " ++ pyRepr (some execPath))))

/-- The status projection of a newest-first chain (`get_status` once the
cache is populated). -/
def statusOfChain : List Event → String
  | e :: _ => whatStr e.what
  | [] => "never_run"

/-- `PipelineEngine.run`: ensure and read the log, refuse unless the
status is `never_run` or `finished`, categorize dependencies and refuse
when any category is non-empty, then run the pipeline. -/
def engine_run (w : World) (p : SingleTaskPipeline) (listed exs ty : Dep → Bool)
    (execPath : String) (hasLchmod : Bool) (spawn : Except String Int)
    (id1 id2 : String) : World × Except RunErr Unit :=
  let log1 := ensure_log_exists w.log
  match read_log log1 with
  | .error e => (⟨log1, w.fs⟩, .error (.logErr e))
  | .ok log2 =>
    let chain := log2.cache.getD []
    let current_pipeline : Option String := chain.head?.map (·.pipeline_name)
    let current_status : String := statusOfChain chain
    if current_status ∉ ["never_run", "finished"] then
      (⟨log2, w.fs⟩,
       .error (.stateErr ("Cannot run, because pipeline " ++ pyRepr current_pipeline ++
         " has a status of " ++ pyRepr (some current_status))))
    else
      let parts := depPartition (get_dependencies p) listed exs ty
      if parts.1.Nonempty ∨ parts.2.1.Nonempty ∨ parts.2.2.Nonempty then
        (⟨log2, w.fs⟩, .error (.depErr parts.1 parts.2.1 parts.2.2))
      else implement_run ⟨log2, w.fs⟩ p execPath hasLchmod spawn id1 id2

/-! ### Concrete states used by counterexamples and witnesses -/

/-- An empty context directory. -/
def emptyFS : FS := { entries := [], inodes := [], snapStore := [] }

/-- The `started` event of the first (and only) pipeline run, with an
empty embedded snapshot. -/
def exStartedEvent : Event :=
  { id := "s", pipeline_name := "hello", what := .started,
    parent_event_id := none, snapshot := some [] }

/-- A log whose only event is `exStartedEvent`. -/
def exLog1 : LogState :=
  { logExists := true, db := [("s", exStartedEvent)],
    head := some (some "s"), cache := none }

def exWorld1 : World := { log := exLog1, fs := emptyFS }

/-- `exLog1` after `read_log`. -/
def exLog1Read : LogState := { exLog1 with cache := some [exStartedEvent] }

/-- The `reverted` event `revert_one` appends when run on `exWorld1` with
fresh id `r`: its parent is the old head event `s`. -/
def exRevEvent : Event :=
  { id := "r", pipeline_name := "hello", what := .reverted,
    parent_event_id := some "s", snapshot := none }

/-- `exWorld1` after `revert_one` with fresh id `r`: the `reverted` event
is appended, but the head file holds `null` (the `started` event's
parent), so the re-read chain is empty. -/
def exWorld1Rev : World :=
  { log := { logExists := true, db := [("s", exStartedEvent), ("r", exRevEvent)],
             head := some none, cache := some [] },
    fs := emptyFS }

/-- A log that has never been written. -/
def emptyLog : LogState := { logExists := false, db := [], head := none, cache := none }

def exWorld0 : World := { log := emptyLog, fs := emptyFS }

/-- A loaded single-task pipeline document. -/
def exPipe : SingleTaskPipeline := { pipeline_name := "hello", executable := "echo", version := "1" }

/-- A dependency oracle that accepts everything. -/
def allTrue : Dep → Bool := fun _ => true

/-- A context containing a directory `d` and a symlink `l` whose target is
that directory. -/
def exFS5 : FS :=
  { entries := [("d", .dir 493), ("l", .symlink "d" 511)], inodes := [], snapStore := [] }

/-- A context with one regular file `f` (inode 7, one byte, mode `0o644`). -/
def exFS3pre : FS :=
  { entries := [("f", .node 7)], inodes := [(7, ⟨.REG, 1, 420⟩)], snapStore := [] }

/-- The snapshot `create_snapshot` takes of `exFS3pre`. -/
def exSnap3 : List (String × SnapRecord) := [("f", ⟨.REG, 420, 1, 7, none⟩)]

/-- `exFS3pre` after `create_snapshot` (write bits stripped, backup link
made) and after the child then modified `f` in place: same inode 7, size
grown to 2, write bit restored.  The hardlink backup shares inode 7, so
the backup's content changed along with the file. -/
def exFS3mod : FS :=
  { entries := [("f", .node 7)], inodes := [(7, ⟨.REG, 2, 292⟩)], snapStore := [(7, 7)] }

/-- The result of restoring `exSnap3` over `exFS3mod`. -/
def exFS3post : FS :=
  { entries := [("f", .node 7)], inodes := [(7, ⟨.REG, 2, 420⟩)], snapStore := [(7, 7)] }

/-- A context whose only entry is a dangling symlink. -/
def exFS10 : FS :=
  { entries := [("l", .symlink "gone" 511)], inodes := [], snapStore := [] }

/-- `exFS3pre` right after `create_snapshot`: write bits stripped from
inode 7, backup hardlink recorded. -/
def exFS3snapped : FS :=
  { exFS3pre with inodes := [(7, ⟨.REG, 1, 292⟩)], snapStore := [(7, 7)] }

/-- `exFS3snapped` after restoring `exSnap3`: the recorded pre-masking
mode `0o644` is re-applied to inode 7; nothing else changes. -/
def exFS3restored : FS :=
  { entries := [("f", .node 7)], inodes := [(7, ⟨.REG, 1, 420⟩)], snapStore := [(7, 7)] }

/-! ### Well-formedness predicates -/

/-- Formats that are backed up by a hardlink: everything except `DIR` and
`LNK`. -/
def hardFmt : Format → Bool
  | .DIR => false
  | .LNK => false
  | _ => true

def sameNode : FSEntry → FSEntry → Bool
  | .node i, .node j => decide (i = j)
  | _, _ => false

def entryInodeOk (fs : FS) : FSEntry → Bool
  | .node i => (alookup fs.inodes i).isSome
  | _ => true

/-- A well-formed context directory: distinct path keys and inode numbers,
every hardlink has an inode-table entry, no two paths share an inode, and
no entry shadows the reserved `.pmatic` / `.trash_cans` names. -/
def wfFS (fs : FS) : Prop :=
  (fs.entries.map Prod.fst).Nodup ∧
  (fs.inodes.map Prod.fst).Nodup ∧
  (∀ p ∈ fs.entries, entryInodeOk fs p.2 = true) ∧
  (∀ p ∈ fs.entries, ∀ q ∈ fs.entries, sameNode p.2 q.2 = true → p.1 = q.1) ∧
  (∀ p ∈ fs.entries, p.1 ∉ defaultExcludePaths) ∧
  (∀ q ∈ fs.inodes, hardFmt q.2.format = true)

instance (fs : FS) : Decidable (wfFS fs) := by
  unfold wfFS
  infer_instance

/-- The shape `stat_item` guarantees for a record, with `LNK` records
additionally required to carry their target (records that went through the
`dir_names` branch of the walk lose it). -/
def recShape (r : SnapRecord) : Bool :=
  match r.format with
  | .DIR => decide (r.size = 0 ∧ r.inode = 0 ∧ r.symlink = none)
  | .LNK =>
    match r.symlink with
    | some t => decide (r.inode = 0 ∧ r.size = t.length)
    | none => false
  | .REG => decide (r.symlink = none)
  | _ => decide (r.symlink = none ∧ r.size = 0)

/-- Whether a path would resolve to a directory in the filesystem a
snapshot describes (following `LNK` records through their targets). -/
def snapIsDir (S : List (String × SnapRecord)) : Nat → String → Bool
  | 0, _ => false
  | fuel + 1, p =>
    match alookup S p with
    | some r =>
      match r.format, r.symlink with
      | .DIR, _ => true
      | .LNK, some t => snapIsDir S fuel t
      | _, _ => false
    | none => false

def linkTargetOk (S : List (String × SnapRecord)) (r : SnapRecord) : Bool :=
  match r.format, r.symlink with
  | .LNK, some t => !snapIsDir S symlinkFuel t
  | .LNK, none => false
  | _, _ => true

def sameHardInode (r q : SnapRecord) : Bool :=
  hardFmt r.format && hardFmt q.format && decide (r.inode = q.inode)

/-- A well-formed snapshot map: distinct keys, `stat_item`-shaped records,
no two hardlink records sharing an inode, no reserved names, and no `LNK`
record whose target chain reaches a directory. -/
def wfSnap (S : List (String × SnapRecord)) : Prop :=
  (S.map Prod.fst).Nodup ∧
  (∀ p ∈ S, recShape p.2 = true) ∧
  (∀ p ∈ S, ∀ q ∈ S, sameHardInode p.2 q.2 = true → p.1 = q.1) ∧
  (∀ p ∈ S, p.1 ∉ defaultExcludePaths) ∧
  (∀ p ∈ S, linkTargetOk S p.2 = true)

instance (S : List (String × SnapRecord)) : Decidable (wfSnap S) := by
  unfold wfSnap
  infer_instance

/-- The inode backup of one hardlink record is intact: the store still has
a link named after the recorded inode that references that very inode, and
the inode still carries the recorded format (and, for `REG`, the recorded
size — in-place modification breaks this). -/
def intactAt (fs : FS) (r : SnapRecord) : Bool :=
  if hardFmt r.format then
    match alookup fs.snapStore r.inode, alookup fs.inodes r.inode with
    | some ino, some d =>
      decide (ino = r.inode) && decide (d.format = r.format) &&
        (if r.format = .REG then decide (d.size = r.size) else true)
    | _, _ => false
  else true

/-- All backups behind a snapshot are intact. -/
def intact (fs : FS) (S : List (String × SnapRecord)) : Prop :=
  ∀ p ∈ S, intactAt fs p.2 = true

instance (fs : FS) (S : List (String × SnapRecord)) : Decidable (intact fs S) := by
  unfold intact
  infer_instance

/-- The phase-1 divergence test of `restore_snapshot`, as a Boolean: the
permission-stripped tuple of a current record differs from the snapshot's
record at the same key (an absent key counts as differing). -/
def divergesB (snap : List (String × SnapRecord)) (kr : String × SnapRecord) : Bool :=
  decide (strip_permissions (some kr.2) ≠ strip_permissions (alookup snap kr.1))

/-- No two records of the list describe hardlinks to the same inode. -/
def regDistinct (l : List (String × SnapRecord)) : Prop :=
  l.Pairwise fun p q => p.2.format = .REG → q.2.format = .REG → p.2.inode ≠ q.2.inode

/-- The permission bits an `lstat` of the path would report: the entry's
own bits for directories and symlinks, the inode's bits for hardlinks. -/
def modeAt (fs : FS) (k : String) : Option Nat :=
  match alookup fs.entries k with
  | some (.dir m) => some m
  | some (.symlink _ m) => some m
  | some (.node i) => (alookup fs.inodes i).map (·.mode)
  | none => none

/-- The part of a directory entry that `os.path.exists`-style resolution
can observe: absent, a terminal object (directory or hardlink), or a
symlink with its target. -/
def resolutionShape : Option FSEntry → Option (Option String)
  | none => none
  | some (.dir _) => some none
  | some (.node _) => some none
  | some (.symlink t _) => some (some t)

instance {α : Type} : IsTotal (String × α) (fun a b => a.1 ≤ b.1) :=
  ⟨fun a b => le_total a.1 b.1⟩

instance {α : Type} : IsTrans (String × α) (fun a b => a.1 ≤ b.1) :=
  ⟨fun _ _ _ h1 h2 => le_trans h1 h2⟩

/-- A snapshot record has been fully realized at its key: the entry is
back in the recorded shape and the recorded mode has been re-applied. -/
def restoredAt (s : FS) (k : String) (r : SnapRecord) : Prop :=
  (r.format = .DIR → alookup s.entries k = some (.dir r.mode)) ∧
  (r.format = .LNK → ∃ t, r.symlink = some t ∧
    alookup s.entries k = some (.symlink t r.mode)) ∧
  (hardFmt r.format = true → alookup s.entries k = some (.node r.inode) ∧
    ∃ sz, alookup s.inodes r.inode = some ⟨r.format, sz, r.mode⟩ ∧
      (r.format = .REG → sz = r.size))

/-! ## Helper lemmas -/

theorem hasKey_append {κ α : Type} [DecidableEq κ] (l l' : List (κ × α)) (k : κ) :
    hasKey (l ++ l') k = (hasKey l k || hasKey l' k) := by
  simp [hasKey]

theorem upsert_fresh {κ α : Type} [DecidableEq κ] {l : List (κ × α)} {k : κ} (v : α)
    (h : hasKey l k = false) : upsert l k v = l ++ [(k, v)] := by
  induction l with
  | nil => rfl
  | cons p rest ih =>
    simp only [hasKey, List.any_cons, Bool.or_eq_false_iff, decide_eq_false_iff_not] at h
    simp only [upsert, if_neg h.1, List.cons_append, List.cons.injEq, true_and]
    exact ih (by simp [hasKey, h.2])

theorem alookup_upsert_self {κ α : Type} [DecidableEq κ] (l : List (κ × α)) (k : κ) (v : α) :
    alookup (upsert l k v) k = some v := by
  induction l with
  | nil => simp [upsert, alookup]
  | cons p rest ih =>
    by_cases hk : p.1 = k
    · simp [upsert, hk, alookup]
    · simp [upsert, hk, alookup, ih]

theorem alookup_upsert_ne {κ α : Type} [DecidableEq κ] (l : List (κ × α)) (k k' : κ)
    (v : α) (h : k' ≠ k) : alookup (upsert l k v) k' = alookup l k' := by
  induction l with
  | nil => simp [upsert, alookup, Ne.symm h]
  | cons p rest ih =>
    by_cases hk : p.1 = k
    · subst hk
      simp [upsert, alookup, h, Ne.symm h]
    · by_cases hk' : p.1 = k'
      · simp [upsert, hk, alookup, hk', h]
      · simp [upsert, hk, alookup, hk', ih]

theorem alookup_of_mem_nodup {κ α : Type} [DecidableEq κ] {l : List (κ × α)} {k : κ}
    {v : α} (hnd : (l.map Prod.fst).Nodup) (h : (k, v) ∈ l) : alookup l k = some v := by
  induction l with
  | nil => cases h
  | cons p rest ih =>
    rcases List.mem_cons.mp h with heq | hmem
    · subst heq
      simp [alookup]
    · have hk : p.1 ≠ k := by
        intro hh
        exact (List.nodup_cons.mp hnd).1 (hh ▸ List.mem_map_of_mem Prod.fst hmem)
      simp only [alookup, if_neg hk]
      exact ih (List.nodup_cons.mp hnd).2 hmem

theorem mem_of_alookup {κ α : Type} [DecidableEq κ] {l : List (κ × α)} {k : κ} {v : α}
    (h : alookup l k = some v) : (k, v) ∈ l := by
  induction l with
  | nil => cases h
  | cons p rest ih =>
    by_cases hk : p.1 = k
    · simp only [alookup, if_pos hk] at h
      cases h
      rw [← hk]
      exact List.mem_cons_self _ _
    · simp only [alookup, if_neg hk] at h
      exact List.mem_cons_of_mem _ (ih h)

theorem read_log_fields (st st' : LogState) (h : read_log st = .ok st') :
    st'.logExists = st.logExists ∧ st'.db = st.db ∧ st'.head = st.head := by
  unfold read_log at h
  split at h
  · split at h
    · cases h; exact ⟨rfl, rfl, rfl⟩
    · split at h
      · cases h
      · cases h; exact ⟨rfl, rfl, rfl⟩
  · cases h; exact ⟨rfl, rfl, rfl⟩

theorem hasKey_of_alookup {κ α : Type} [DecidableEq κ] {l : List (κ × α)} {k : κ} {v : α}
    (h : alookup l k = some v) : hasKey l k = true := by
  induction l with
  | nil => cases h
  | cons p rest ih =>
    by_cases hk : p.1 = k
    · simp [hasKey, hk]
    · simp only [alookup, if_neg hk] at h
      have := ih h
      unfold hasKey at this ⊢
      simp only [List.any_cons, Bool.or_eq_true]
      exact Or.inr this

theorem alookup_append_left {κ α : Type} [DecidableEq κ] {l l' : List (κ × α)} {k : κ}
    (h : hasKey l k = true) : alookup (l ++ l') k = alookup l k := by
  induction l with
  | nil => simp [hasKey] at h
  | cons p rest ih =>
    by_cases hk : p.1 = k
    · simp [alookup, hk]
    · simp only [List.cons_append, alookup, if_neg hk]
      apply ih
      unfold hasKey at h ⊢
      simp only [List.any_cons, Bool.or_eq_true, decide_eq_true_eq] at h
      rcases h with h | h
      · exact absurd h hk
      · exact h

theorem readChain_mono {db : List (String × Event)} :
    ∀ (n m : Nat) (h : Option String) (l : List Event), n ≤ m →
    readChain db h n = .ok l → readChain db h m = .ok l := by
  intro n
  induction n with
  | zero =>
    intro m h l _ hr
    cases h with
    | none =>
      cases hr
      cases m <;> rfl
    | some i => cases hr
  | succ n ih =>
    intro m h l hm hr
    cases h with
    | none =>
      cases hr
      cases m <;> rfl
    | some i =>
      obtain ⟨m', rfl⟩ : ∃ m', m = m' + 1 := ⟨m - 1, by omega⟩
      unfold readChain at hr ⊢
      cases he : alookup db i with
      | none =>
        simp only [he] at hr
        cases hr
      | some ev =>
        simp only [he] at hr ⊢
        cases hrest : readChain db ev.parent_event_id n with
        | error e =>
          simp only [hrest] at hr
          cases hr
        | ok rest =>
          simp only [hrest] at hr
          cases hr
          simp only [ih m' ev.parent_event_id rest (by omega) hrest]

theorem readChain_suffix {db : List (String × Event)} :
    ∀ (pre : List Event) (n : Nat) (h : Option String) (e : Event) (suf : List Event),
    readChain db h n = .ok (pre ++ e :: suf) →
    readChain db e.parent_event_id n = .ok suf := by
  intro pre
  induction pre with
  | nil =>
    intro n h e suf hr
    cases h with
    | none => cases n <;> cases hr
    | some i =>
      cases n with
      | zero => cases hr
      | succ n =>
        unfold readChain at hr
        cases he : alookup db i with
        | none =>
          simp only [he] at hr
          cases hr
        | some ev =>
          simp only [he] at hr
          cases hrest : readChain db ev.parent_event_id n with
          | error msg =>
            simp only [hrest] at hr
            cases hr
          | ok rest =>
            simp only [hrest] at hr
            rw [Except.ok.injEq, List.nil_append] at hr
            cases hr
            exact readChain_mono n (n + 1) _ _ (by omega) hrest
  | cons a pre ih =>
    intro n h e suf hr
    cases h with
    | none => cases n <;> cases hr
    | some i =>
      cases n with
      | zero => cases hr
      | succ n =>
        unfold readChain at hr
        cases he : alookup db i with
        | none =>
          simp only [he] at hr
          cases hr
        | some ev =>
          simp only [he] at hr
          cases hrest : readChain db ev.parent_event_id n with
          | error msg =>
            simp only [hrest] at hr
            cases hr
          | ok rest =>
            simp only [hrest] at hr
            rw [Except.ok.injEq, List.cons_append, List.cons.injEq] at hr
            obtain ⟨rfl, hrest2⟩ := hr
            exact readChain_mono n (n + 1) _ _ (by omega) (ih n _ e suf (by rw [hrest, hrest2]))

theorem readChain_extend {db : List (String × Event)} {j : String} {v : Event}
    (hfresh : hasKey db j = false) :
    ∀ (n : Nat) (h : Option String) (l : List Event),
    readChain db h n = .ok l → readChain (upsert db j v) h n = .ok l := by
  intro n
  induction n with
  | zero =>
    intro h l hr
    cases h with
    | none => cases hr; rfl
    | some i => cases hr
  | succ n ih =>
    intro h l hr
    cases h with
    | none => cases hr; rfl
    | some i =>
      unfold readChain at hr ⊢
      cases he : alookup db i with
      | none =>
        simp only [he] at hr
        cases hr
      | some ev =>
        simp only [he] at hr
        have hij : i ≠ j := by
          intro hh
          rw [hh] at he
          rw [hasKey_of_alookup he] at hfresh
          cases hfresh
        simp only [alookup_upsert_ne _ _ _ _ hij, he]
        cases hrest : readChain db ev.parent_event_id n with
        | error msg =>
          simp only [hrest] at hr
          cases hr
        | ok rest =>
          simp only [hrest] at hr
          cases hr
          simp only [ih ev.parent_event_id rest hrest]

theorem find_split {α : Type} {p : α → Bool} :
    ∀ {l : List α} {a : α}, List.find? p l = some a →
    ∃ pre suf, l = pre ++ a :: suf ∧ (∀ b ∈ pre, p b = false) ∧ p a = true := by
  intro l
  induction l with
  | nil => intro a h; cases h
  | cons x rest ih =>
    intro a h
    rw [List.find?_cons] at h
    cases hx : p x with
    | true =>
      rw [hx] at h
      cases h
      exact ⟨[], rest, rfl, fun b hb => absurd hb (List.not_mem_nil b), hx⟩
    | false =>
      rw [hx] at h
      obtain ⟨pre, suf, heq, hpre, hp⟩ := ih h
      refine ⟨x :: pre, suf, by rw [heq]; rfl, ?_, hp⟩
      intro b hb
      rcases List.mem_cons.mp hb with rfl | hb'
      · exact hx
      · exact hpre b hb'

theorem read_log_of_readChain {st : LogState} {hv : Option String} {ch : List Event}
    (hex : st.logExists = true) (hhd : st.head = some hv)
    (hch : readChain st.db hv (st.db.length + 1) = .ok ch) :
    read_log st = .ok { st with cache := some ch } := by
  unfold read_log
  rw [if_pos hex]
  simp only [hhd, hch]

theorem get_status_of_cache {st : LogState} {suf : List Event}
    (hex : st.logExists = true) (hc : st.cache = some suf)
    (hrl : read_log st = .ok st) :
    get_status st = .ok (statusOfChain suf) := by
  unfold get_status
  rw [if_pos hex]
  cases suf with
  | nil =>
    have hf : cacheFalsy st = true := by unfold cacheFalsy; rw [hc]
    simp only [hf, if_true, hrl, hc, statusOfChain]
  | cons e rest =>
    have hf : cacheFalsy st = false := by unfold cacheFalsy; rw [hc]
    simp only [hf, if_false, Bool.false_eq_true, hc, statusOfChain]

theorem revert_one_spec {hasL : Bool} {w : World} {f : String}
    (hfresh : hasKey w.log.db f = false) {w' : World} {tr : List String}
    (hrev : revert_one hasL w f = .ok (w', tr)) :
    ∃ (ch pre suf : List Event) (sev : Event),
      read_log w.log = .ok { w.log with cache := some ch } ∧
      ch = pre ++ sev :: suf ∧
      sev.what = .started ∧
      (∀ e ∈ pre, e.what ≠ .started) ∧
      w'.log.logExists = true ∧
      w'.log.head = some sev.parent_event_id ∧
      (∃ rev : Event, rev.id = f ∧ rev.what = .reverted ∧
        w'.log.db = w.log.db ++ [(f, rev)]) ∧
      w'.log.cache = some suf ∧
      read_log w'.log = .ok w'.log := by
  simp only [revert_one] at hrev
  cases hread : read_log w.log with
  | error e =>
    simp only [hread] at hrev
    cases hrev
  | ok log1 =>
    simp only [hread] at hrev
    split at hrev
    · cases hrev
    rename_i hpn
    split at hrev
    · cases hrev
    rename_i sev hfind
    split at hrev
    · cases hrev
    rename_i hsame
    split at hrev
    · cases hrev
    rename_i snap hsnap
    split at hrev
    · cases hrev
    rename_i fs2 trashed hres
    split at hrev
    · cases hrev
    rename_i log3 hread2
    cases hrev
    -- analyse how log1 was produced
    unfold read_log at hread
    by_cases hex : w.log.logExists = true
    case neg =>
      rw [if_neg hex] at hread
      cases hread
      exact absurd rfl hpn
    rw [if_pos hex] at hread
    cases hhv : w.log.head with
    | none =>
      simp only [hhv] at hread
      cases hread
      exact absurd rfl hpn
    | some hv =>
      simp only [hhv] at hread
      cases hch : readChain w.log.db hv (w.log.db.length + 1) with
      | error e =>
        simp only [hch] at hread
        cases hread
      | ok ch =>
        simp only [hch] at hread
        cases hread
        -- now log1 = { w.log with cache := some ch }
        have hfind' : ch.find? (fun e => decide (e.what = What.started)) = some sev := hfind
        obtain ⟨pre, suf, hsplit, hpre, hsevb⟩ := find_split hfind'
        have hsuffix : readChain w.log.db sev.parent_event_id (w.log.db.length + 1) =
            .ok suf :=
          readChain_suffix pre (w.log.db.length + 1) hv sev suf
            (by rw [← hsplit]; exact hch)
        have hch2 : readChain
            (upsert w.log.db f (mkEvent (ensure_log_exists { w.log with cache := some ch })
              (current_name ch) .reverted f none none none))
            sev.parent_event_id
            ((upsert w.log.db f (mkEvent (ensure_log_exists { w.log with cache := some ch })
              (current_name ch) .reverted f none none none)).length + 1) = .ok suf := by
          refine readChain_mono _ _ _ _ ?_ (readChain_extend hfresh _ _ _ hsuffix)
          rw [upsert_fresh _ hfresh]
          simp
        have hrl2 : read_log (record_pipeline_reverted { w.log with cache := some ch }
              (current_name ch) f sev.parent_event_id) =
            .ok { record_pipeline_reverted { w.log with cache := some ch }
              (current_name ch) f sev.parent_event_id with cache := some suf } :=
          read_log_of_readChain rfl rfl hch2
        have hlog3 : (Except.ok
            { record_pipeline_reverted { w.log with cache := some ch }
              (current_name ch) f sev.parent_event_id with cache := some suf } :
              Except String LogState) =
            .ok log3 := hrl2.symm.trans hread2
        injection hlog3 with hlog3
        subst hlog3
        refine ⟨ch, pre, suf, sev, by simp only [hhv], hsplit, of_decide_eq_true hsevb, ?_, rfl, rfl,
          ⟨mkEvent (ensure_log_exists { w.log with cache := some ch })
            (current_name ch) .reverted f none none none, rfl, rfl, ?_⟩, rfl, ?_⟩
        · intro e he hst
          have := hpre e he
          rw [hst] at this
          simp at this
        · show upsert w.log.db f _ = _
          exact upsert_fresh _ hfresh
        · exact read_log_of_readChain rfl rfl hch2

/-! ## Claims -/

/-- Claim C9: the three dependency failure sets computed before a run are
pairwise disjoint; a dependency is tested for existence only if listed,
and for correct type only if listed and existing. -/
theorem claim_C9_dep_partition (deps : Finset Dep) (listed exs ty : Dep → Bool) :
    Disjoint (depPartition deps listed exs ty).1 (depPartition deps listed exs ty).2.1 ∧
    Disjoint (depPartition deps listed exs ty).1 (depPartition deps listed exs ty).2.2 ∧
    Disjoint (depPartition deps listed exs ty).2.1 (depPartition deps listed exs ty).2.2 ∧
    (∀ d ∈ (depPartition deps listed exs ty).2.1, listed d = true) ∧
    (∀ d ∈ (depPartition deps listed exs ty).2.2, listed d = true ∧ exs d = true) := by
  have hu : ∀ d, d ∈ (depPartition deps listed exs ty).1 ↔
      d ∈ deps ∧ listed d = false := by
    intro d; simp [depPartition, Finset.mem_filter]
  have hm : ∀ d, d ∈ (depPartition deps listed exs ty).2.1 ↔
      d ∈ deps ∧ listed d = true ∧ exs d = false := by
    intro d
    simp only [depPartition, Finset.mem_filter, Finset.mem_sdiff]
    cases h : listed d <;> simp [h]
  have hb : ∀ d, d ∈ (depPartition deps listed exs ty).2.2 ↔
      d ∈ deps ∧ listed d = true ∧ exs d = true ∧ ty d = false := by
    intro d
    simp only [depPartition, Finset.mem_filter, Finset.mem_sdiff]
    cases hl : listed d <;> cases hx : exs d <;> simp [hl, hx]
  refine ⟨Finset.disjoint_left.mpr ?_, Finset.disjoint_left.mpr ?_,
    Finset.disjoint_left.mpr ?_, ?_, ?_⟩
  · intro d h1 h2
    rw [hu] at h1; rw [hm] at h2
    rw [h1.2] at h2; exact absurd h2.2.1 (by decide)
  · intro d h1 h2
    rw [hu] at h1; rw [hb] at h2
    rw [h1.2] at h2; exact absurd h2.2.1 (by decide)
  · intro d h1 h2
    rw [hm] at h1; rw [hb] at h2
    rw [h1.2.2] at h2; exact absurd h2.2.2.1 (by decide)
  · intro d h1; exact ((hm d).mp h1).2.1
  · intro d h1; exact ⟨((hb d).mp h1).2.1, ((hb d).mp h1).2.2.1⟩

/-- Claim C1 counterexample: `exWorld1`'s chain consists of exactly one
`started` event, `revert_one` succeeds on it, yet `get_status` afterwards
returns `never_run`, not `reverted` — `revert_one` saves the `started`
event's (null) parent as the new head, so the re-read chain is empty. -/
theorem claim_C1_counterexample :
    (read_log exWorld1.log).map
        (fun l => (l.cache.getD []).any fun e => decide (e.what = .started)) = .ok true ∧
    (revert_one true exWorld1 "r").map (fun p => get_status p.1.log) =
      .ok (.ok "never_run") ∧
    "never_run" ≠ "reverted" := ⟨rfl, rfl, by decide⟩

/-- Claim C2 counterexample: on `exWorld1`, `revert_one` does append a new
`reverted` event under its fresh id `r`, but the head file afterwards
holds `null` (the `started` event's parent), not the id `r` of the newly
appended event. -/
theorem claim_C2_counterexample :
    (revert_one true exWorld1 "r").map
        (fun p => (alookup p.1.log.db "r").map (·.what)) = .ok (some .reverted) ∧
    (revert_one true exWorld1 "r").map (fun p => p.1.log.head) = .ok (some none) ∧
    (some none : Option (Option String)) ≠ some (some "r") := ⟨rfl, rfl, by decide⟩

/-- Claim C3 counterexample: snapshot a one-byte regular file, let the
child modify it in place (same inode, size 2) — the hardlink backup shares
the inode, so its content changes too.  `restore_snapshot` then succeeds,
but the fresh scan disagrees with the snapshot on the `size` component. -/
theorem claim_C3_counterexample :
    create_snapshot true exFS3pre =
      .ok ({ exFS3pre with inodes := [(7, ⟨.REG, 1, 292⟩)], snapStore := [(7, 7)] },
           exSnap3) ∧
    restore_snapshot true exSnap3 exFS3mod = .ok (exFS3post, ["f"]) ∧
    (alookup (scan_directory exFS3post defaultExcludePaths) "f").map (·.size) = some 2 ∧
    (alookup exSnap3 "f").map (·.size) = some 1 := ⟨rfl, rfl, rfl, rfl⟩

/-- Claim C5 counterexample: `l` is a symlink whose target `d` is a
directory; `os.walk` classifies it as a directory, so `scan_directory`
emits its record through the directory branch with `symlink := none`
although the record's format is `LNK`. -/
theorem claim_C5_counterexample :
    alookup exFS5.entries "l" = some (.symlink "d" 511) ∧
    alookup (scan_directory exFS5 defaultExcludePaths) "l" =
      some ⟨.LNK, 511, 1, 0, none⟩ ∧
    (some "d" : Option String) ≠ none := ⟨rfl, rfl, by decide⟩

/-- Claim C6: `PipelineEngine.run` refuses to proceed unless the current
status is `never_run` or `finished`; for every other status it fails with
a message naming the current pipeline and status, before any event is
posted, leaving the event db and head unchanged. -/
theorem claim_C6_state_gate (w : World) (p : SingleTaskPipeline)
    (listed exs ty : Dep → Bool) (execPath : String) (hasLchmod : Bool)
    (spawn : Except String Int) (id1 id2 : String) (log2 : LogState)
    (hread : read_log (ensure_log_exists w.log) = .ok log2)
    (hbad : statusOfChain (log2.cache.getD []) ∉ (["never_run", "finished"] : List String)) :
    engine_run w p listed exs ty execPath hasLchmod spawn id1 id2 =
      (⟨log2, w.fs⟩,
       .error (.stateErr ("Cannot run, because pipeline " ++
         pyRepr ((log2.cache.getD []).head?.map (·.pipeline_name)) ++
         " has a status of " ++ pyRepr (some (statusOfChain (log2.cache.getD [])))))) ∧
    log2.db = w.log.db ∧ log2.head = w.log.head := by
  have hf := read_log_fields _ _ hread
  refine ⟨?_, hf.2.1, hf.2.2⟩
  simp only [engine_run]
  rw [hread]
  simp only [statusOfChain] at hbad
  simp [hbad, statusOfChain]

/-- Witness for C6: a log whose newest event is `started` makes the
engine refuse with the state error, leaving db and head untouched. -/
theorem claim_C6_witness :
    read_log (ensure_log_exists exWorld1.log) = .ok exLog1Read ∧
    statusOfChain (exLog1Read.cache.getD []) ∉ (["never_run", "finished"] : List String) ∧
    (engine_run exWorld1 exPipe allTrue allTrue allTrue "/bin/echo" true (.ok 0) "a" "b" =
      (⟨exLog1Read, exWorld1.fs⟩,
       .error (.stateErr ("Cannot run, because pipeline " ++
         pyRepr ((exLog1Read.cache.getD []).head?.map (·.pipeline_name)) ++
         " has a status of " ++ pyRepr (some (statusOfChain (exLog1Read.cache.getD [])))))) ∧
      exLog1Read.db = exWorld1.log.db ∧ exLog1Read.head = exWorld1.log.head) :=
  ⟨rfl, by decide,
   claim_C6_state_gate exWorld1 exPipe allTrue allTrue allTrue "/bin/echo" true (.ok 0)
     "a" "b" exLog1Read rfl (by decide)⟩

/-- Claim C7: in the single-task executor, once the snapshot has been
taken the `started` event is posted; then an OS error while spawning or
waiting posts a `failed` event carrying the message and re-raises, exit
code zero posts exactly one `finished` event without error, and a
non-zero exit code posts a `failed` event carrying the code and raises an
exit-code error. -/
theorem claim_C7_single_task_run (w : World) (p : SingleTaskPipeline) (execPath : String)
    (hasLchmod : Bool) (spawn : Except String Int) (id1 id2 : String)
    (fs1 : FS) (snap : List (String × SnapRecord))
    (hsnap : create_snapshot hasLchmod w.fs = .ok (fs1, snap))
    (h1 : hasKey w.log.db id1 = false) (h2 : hasKey w.log.db id2 = false)
    (h12 : id1 ≠ id2) :
    ∃ e1 e2 : Event,
      (implement_run w p execPath hasLchmod spawn id1 id2).1.log.db =
        w.log.db ++ [(id1, e1), (id2, e2)] ∧
      e1.id = id1 ∧ e1.what = .started ∧ e1.snapshot = some snap ∧
      e2.id = id2 ∧ e2.parent_event_id = some id1 ∧
      (implement_run w p execPath hasLchmod spawn id1 id2).1.fs = fs1 ∧
      (match spawn with
       | .error msg => e2.what = .failed ∧ e2.exception = some msg ∧
           (implement_run w p execPath hasLchmod spawn id1 id2).2 = .error (.osErr msg)
       | .ok code =>
         if code = 0 then
           e2.what = .finished ∧
           (implement_run w p execPath hasLchmod spawn id1 id2).2 = .ok ()
         else
           e2.what = .failed ∧ e2.exit_code = some code ∧
           (implement_run w p execPath hasLchmod spawn id1 id2).2 =
             .error (.exitCodeErr code ("exit code from " ++ pyRepr (some execPath)))) := by
  have hk2 : ∀ e1 : Event, hasKey (w.log.db ++ [(id1, e1)]) id2 = false := by
    intro e1
    rw [hasKey_append, h2]
    simp [hasKey, h12]
  have hdb : ∀ (wh1 wh2 : What) (s1 s2 : Option (List (String × SnapRecord)))
      (c1 c2 : Option Int) (x1 x2 : Option String),
      (post_event (post_event (ensure_log_exists w.log) p.pipeline_name wh1 id1 s1 c1 x1)
        p.pipeline_name wh2 id2 s2 c2 x2).db =
      w.log.db ++
        [(id1, mkEvent (ensure_log_exists w.log) p.pipeline_name wh1 id1 s1 c1 x1),
         (id2, mkEvent (post_event (ensure_log_exists w.log) p.pipeline_name wh1 id1 s1 c1 x1)
            p.pipeline_name wh2 id2 s2 c2 x2)] := by
    intro wh1 wh2 s1 s2 c1 c2 x1 x2
    simp only [post_event, ensure_log_exists]
    rw [upsert_fresh _ h1]
    rw [upsert_fresh _ (hk2 _)]
    rw [List.append_assoc]
    rfl
  cases spawn with
  | error msg =>
    have himpl : implement_run w p execPath hasLchmod (.error msg) id1 id2 =
        (⟨record_pipeline_failed_exc
            (post_event (ensure_log_exists w.log) p.pipeline_name .started id1 (some snap) none none)
            p.pipeline_name id2 msg, fs1⟩,
         .error (.osErr msg)) := by
      simp only [implement_run, hsnap]
    refine ⟨mkEvent (ensure_log_exists w.log) p.pipeline_name .started id1 (some snap) none none,
      mkEvent (post_event (ensure_log_exists w.log) p.pipeline_name .started id1 (some snap) none none)
        p.pipeline_name .failed id2 none none (some msg),
      ?_, rfl, rfl, rfl, rfl, rfl, ?_, rfl, rfl, ?_⟩
    · rw [himpl]
      exact hdb .started .failed (some snap) none none none none (some msg)
    · rw [himpl]
    · rw [himpl]
  | ok code =>
    by_cases hc : code = 0
    · subst hc
      have himpl : implement_run w p execPath hasLchmod (.ok 0) id1 id2 =
          (⟨record_pipeline_finished
              (post_event (ensure_log_exists w.log) p.pipeline_name .started id1 (some snap) none none)
              p.pipeline_name id2, fs1⟩,
           .ok ()) := by
        simp only [implement_run, hsnap, if_true]
      refine ⟨mkEvent (ensure_log_exists w.log) p.pipeline_name .started id1 (some snap) none none,
        mkEvent (post_event (ensure_log_exists w.log) p.pipeline_name .started id1 (some snap) none none)
          p.pipeline_name .finished id2 none none none,
        ?_, rfl, rfl, rfl, rfl, rfl, ?_, rfl, ?_⟩
      · rw [himpl]
        exact hdb .started .finished (some snap) none none none none none
      · rw [himpl]
      · rw [himpl]
    · have himpl : implement_run w p execPath hasLchmod (.ok code) id1 id2 =
          (⟨record_pipeline_failed_code
              (post_event (ensure_log_exists w.log) p.pipeline_name .started id1 (some snap) none none)
              p.pipeline_name id2 code, fs1⟩,
           .error (.exitCodeErr code ("exit code from " ++ pyRepr (some execPath)))) := by
        simp only [implement_run, hsnap]
        rw [if_neg hc]
      refine ⟨mkEvent (ensure_log_exists w.log) p.pipeline_name .started id1 (some snap) none none,
        mkEvent (post_event (ensure_log_exists w.log) p.pipeline_name .started id1 (some snap) none none)
          p.pipeline_name .failed id2 none (some code) none,
        ?_, rfl, rfl, rfl, rfl, rfl, ?_, ?_⟩
      · rw [himpl]
        exact hdb .started .failed (some snap) none none (some code) none none
      · rw [himpl]
      · simp only [if_neg hc]
        exact ⟨rfl, rfl, by rw [himpl]⟩

/-- Witness for C7: running in an empty, never-run context with a child
that exits 0. -/
theorem claim_C7_witness :
    create_snapshot true exWorld0.fs = .ok (emptyFS, []) ∧
    hasKey exWorld0.log.db "a" = false ∧ hasKey exWorld0.log.db "b" = false ∧
    "a" ≠ "b" ∧
    (∃ e1 e2 : Event,
      (implement_run exWorld0 exPipe "/bin/echo" true (.ok 0) "a" "b").1.log.db =
        exWorld0.log.db ++ [("a", e1), ("b", e2)] ∧
      e1.id = "a" ∧ e1.what = .started ∧ e1.snapshot = some [] ∧
      e2.id = "b" ∧ e2.parent_event_id = some "a" ∧
      (implement_run exWorld0 exPipe "/bin/echo" true (.ok 0) "a" "b").1.fs = emptyFS ∧
      (match (.ok 0 : Except String Int) with
       | .error msg => e2.what = .failed ∧ e2.exception = some msg ∧
           (implement_run exWorld0 exPipe "/bin/echo" true (.ok 0) "a" "b").2 = .error (.osErr msg)
       | .ok code =>
         if code = 0 then
           e2.what = .finished ∧
           (implement_run exWorld0 exPipe "/bin/echo" true (.ok 0) "a" "b").2 = .ok ()
         else
           e2.what = .failed ∧ e2.exit_code = some code ∧
           (implement_run exWorld0 exPipe "/bin/echo" true (.ok 0) "a" "b").2 =
             .error (.exitCodeErr code ("exit code from " ++ pyRepr (some "/bin/echo"))))) :=
  ⟨rfl, rfl, rfl, by decide,
   claim_C7_single_task_run exWorld0 exPipe "/bin/echo" true (.ok 0) "a" "b" emptyFS []
     rfl rfl rfl (by decide)⟩

theorem scan_map_fst_sublist (fs : FS) (excl : List String) :
    ((scan_directory fs excl).map Prod.fst).Sublist (fs.entries.map Prod.fst) := by
  unfold scan_directory
  generalize fs.entries = L
  induction L with
  | nil => simp
  | cons p rest ih =>
    by_cases hw : walkIsDir fs p.2 = true
    · by_cases hx : p.1 ∈ excl
      · simp only [List.filterMap_cons, hw, if_true, if_pos hx, List.map_cons]
        exact ih.cons _
      · simp only [List.filterMap_cons, hw, if_true, if_neg hx, List.map_cons]
        exact ih.cons₂ _
    · simp only [List.filterMap_cons, if_neg hw, List.map_cons]
      exact ih.cons₂ _

theorem scan_keys_nodup (fs : FS) (excl : List String)
    (hnd : (fs.entries.map Prod.fst).Nodup) :
    ((scan_directory fs excl).map Prod.fst).Nodup :=
  (scan_map_fst_sublist fs excl).nodup hnd

theorem scan_mem {fs : FS} {excl : List String} {k : String} {r : SnapRecord}
    (h : (k, r) ∈ scan_directory fs excl) :
    ∃ e, (k, e) ∈ fs.entries ∧
      ((walkIsDir fs e = true ∧ k ∉ excl ∧ r = { stat_item fs e with symlink := none }) ∨
       (walkIsDir fs e = false ∧ r = stat_item fs e)) := by
  unfold scan_directory at h
  rw [List.mem_filterMap] at h
  obtain ⟨⟨k', e⟩, hp, hmap⟩ := h
  refine ⟨e, ?_, ?_⟩
  · by_cases hw : walkIsDir fs e
    · by_cases hx : k' ∈ excl
      · simp [hw, hx] at hmap
      · simp only [hw, hx, if_true, if_neg hx, if_pos] at hmap
        cases hmap
        exact hp
    · simp only [hw, if_neg, Bool.false_eq_true, if_false] at hmap
      cases hmap
      exact hp
  · by_cases hw : walkIsDir fs e
    · by_cases hx : k' ∈ excl
      · simp [hw, hx] at hmap
      · simp only [hw, hx, if_true, if_neg hx, if_pos] at hmap
        cases hmap
        exact Or.inl ⟨hw, hx, rfl⟩
    · simp only [hw, if_neg, Bool.false_eq_true, if_false] at hmap
      cases hmap
      exact Or.inr ⟨by simpa using hw, rfl⟩

theorem scan_reg {fs : FS} {excl : List String} {k : String} {r : SnapRecord}
    (hok : ∀ p ∈ fs.entries, entryInodeOk fs p.2 = true)
    (h : (k, r) ∈ scan_directory fs excl) (hreg : r.format = .REG) :
    ∃ i d, (k, FSEntry.node i) ∈ fs.entries ∧ alookup fs.inodes i = some d ∧
      d.format = .REG ∧ r = ⟨.REG, d.mode, d.size, i, none⟩ := by
  obtain ⟨e, hmem, hcase⟩ := scan_mem h
  cases e with
  | dir m =>
    exfalso
    rcases hcase with ⟨_, _, hr⟩ | ⟨_, hr⟩ <;> rw [hr] at hreg <;> simp [stat_item] at hreg
  | symlink t m =>
    exfalso
    rcases hcase with ⟨_, _, hr⟩ | ⟨_, hr⟩ <;> rw [hr] at hreg <;> simp [stat_item] at hreg
  | node i =>
    rcases hcase with ⟨hw, _, _⟩ | ⟨_, hr⟩
    · simp [walkIsDir] at hw
    · have hik := hok _ hmem
      simp only [entryInodeOk, Option.isSome_iff_exists] at hik
      obtain ⟨d, hd⟩ := hik
      refine ⟨i, d, hmem, hd, ?_, ?_⟩
      · rw [hr] at hreg
        simp only [stat_item, hd] at hreg
        exact hreg
      · rw [hr]
        simp only [stat_item, hd]
        have hdf : d.format = .REG := by
          rw [hr] at hreg
          simp only [stat_item, hd] at hreg
          exact hreg
        rw [hdf]
        simp

theorem staleCleanup_fields (fs : FS) (key : String) (r : SnapRecord) :
    (staleCleanup fs key r).entries = fs.entries ∧
    (staleCleanup fs key r).inodes = fs.inodes := by
  unfold staleCleanup
  split
  · split <;> exact ⟨rfl, rfl⟩
  · exact ⟨rfl, rfl⟩

theorem makeBackupLink_fields {fsa : FS} {key : String} {r : SnapRecord} {fs1 : FS}
    (h : makeBackupLink fsa key r = .ok fs1) :
    fs1.entries = fsa.entries ∧ fs1.inodes = fsa.inodes := by
  unfold makeBackupLink at h
  split at h
  · cases h
    exact ⟨rfl, rfl⟩
  · split at h
    · cases h
      exact ⟨rfl, rfl⟩
    · cases h

theorem createBackup_fields {fs : FS} {key : String} {r : SnapRecord} {fs1 : FS}
    (h : createBackup fs key r = .ok fs1) :
    fs1.entries = fs.entries ∧ fs1.inodes = fs.inodes := by
  unfold createBackup at h
  split at h
  · cases h
    exact ⟨rfl, rfl⟩
  · have h1 := makeBackupLink_fields h
    have h2 := staleCleanup_fields fs key r
    exact ⟨h1.1.trans h2.1, h1.2.trans h2.2⟩

theorem lchmod_node_some {hasL : Bool} {fs : FS} {path : String} {mode i : Nat}
    {d : InodeData} (hent : alookup fs.entries path = some (.node i))
    (hd : alookup fs.inodes i = some d) :
    lchmod hasL fs path mode = .ok { fs with inodes := upsert fs.inodes i { d with mode := mode } } := by
  simp only [lchmod, hent, hd]

theorem lchmod_node_none {hasL : Bool} {fs : FS} {path : String} {mode i : Nat}
    (hent : alookup fs.entries path = some (.node i))
    (hd : alookup fs.inodes i = none) :
    lchmod hasL fs path mode = .ok fs := by
  simp only [lchmod, hent, hd]

theorem createStep_spec {hasL : Bool} {s : FS} {k : String} {r : SnapRecord} {s1 : FS}
    (h : createStep hasL s (k, r) = .ok s1)
    (hent : r.format = .REG → alookup s.entries k = some (.node r.inode)) :
    s1.entries = s.entries ∧
    (∀ i, ¬(r.format = .REG ∧ r.inode = i) → alookup s1.inodes i = alookup s.inodes i) ∧
    (r.format = .REG → ∀ d, alookup s.inodes r.inode = some d →
      alookup s1.inodes r.inode = some { d with mode := r.mode &&& 0o7555 }) := by
  unfold createStep at h
  split at h
  · cases h
  · split at h
    · cases h
    · rename_i fsb hb
      have hbf := createBackup_fields hb
      by_cases hreg : r.format = .REG
      · rw [if_pos hreg] at h
        have hentb : alookup fsb.entries k = some (.node r.inode) := by
          rw [hbf.1]
          exact hent hreg
        cases hi : alookup fsb.inodes r.inode with
        | some d =>
          rw [lchmod_node_some hentb hi] at h
          cases h
          refine ⟨hbf.1, ?_, ?_⟩
          · intro i hni
            have hir : i ≠ r.inode := by
              intro hh
              exact hni ⟨hreg, hh.symm⟩
            show alookup (upsert fsb.inodes r.inode _) i = _
            rw [alookup_upsert_ne _ _ _ _ hir, hbf.2]
          · intro _ d' hd'
            have : d = d' := by
              rw [hbf.2] at hi
              rw [hi] at hd'
              cases hd'
              rfl
            subst this
            show alookup (upsert fsb.inodes r.inode _) r.inode = _
            rw [alookup_upsert_self]
        | none =>
          rw [lchmod_node_none hentb hi] at h
          cases h
          refine ⟨hbf.1, fun i _ => by rw [hbf.2], ?_⟩
          intro _ d' hd'
          rw [hbf.2] at hi
          rw [hi] at hd'
          cases hd'
      · rw [if_neg hreg] at h
        cases h
        exact ⟨hbf.1, fun i _ => by rw [hbf.2], fun hr => absurd hr hreg⟩

theorem createLoop_spec (hasL : Bool) :
    ∀ (l : List (String × SnapRecord)) (s s' : FS),
    createLoop hasL s l = .ok s' →
    (∀ p ∈ l, p.2.format = .REG → alookup s.entries p.1 = some (.node p.2.inode)) →
    regDistinct l →
    s'.entries = s.entries ∧
    (∀ i, (∀ p ∈ l, ¬(p.2.format = .REG ∧ p.2.inode = i)) →
        alookup s'.inodes i = alookup s.inodes i) ∧
    (∀ p ∈ l, p.2.format = .REG → ∀ d, alookup s.inodes p.2.inode = some d →
        alookup s'.inodes p.2.inode = some { d with mode := p.2.mode &&& 0o7555 })
  | [], s, s', h, _, _ => by
    unfold createLoop at h
    cases h
    exact ⟨rfl, fun _ _ => rfl, fun p hp => absurd hp (List.not_mem_nil p)⟩
  | (k, r) :: rest, s, s', h, hent, hdist => by
    unfold createLoop at h
    split at h
    · cases h
    · rename_i s1 hstep0
      have hstep := createStep_spec hstep0
        (fun hreg => hent (k, r) (List.mem_cons_self _ _) hreg)
      have hpair : ∀ q ∈ rest, r.format = .REG → q.2.format = .REG → r.inode ≠ q.2.inode :=
        fun q hq => List.rel_of_pairwise_cons hdist hq
      have ih := createLoop_spec hasL rest s1 s' h
        (by
          intro p hp hreg
          rw [hstep.1]
          exact hent p (List.mem_cons_of_mem _ hp) hreg)
        hdist.of_cons
      refine ⟨ih.1.trans hstep.1, ?_, ?_⟩
      · intro i hni
        rw [ih.2.1 i (fun p hp => hni p (List.mem_cons_of_mem _ hp))]
        exact hstep.2.1 i (hni (k, r) (List.mem_cons_self _ _))
      · intro p hp hreg d hd
        rcases List.mem_cons.mp hp with heq | hmem
        · subst heq
          have hframe : ∀ q ∈ rest, ¬(q.2.format = .REG ∧ q.2.inode = (k, r).2.inode) := by
            rintro q hq ⟨hqr, hqi⟩
            exact hpair q hq hreg hqr hqi.symm
          rw [ih.2.1 (k, r).2.inode hframe]
          exact hstep.2.2 hreg d hd
        · have hji : ¬(r.format = .REG ∧ r.inode = p.2.inode) := by
            rintro ⟨hrr, hri⟩
            exact hpair p hmem hrr hreg hri
          have hd1 : alookup s1.inodes p.2.inode = some d := by
            rw [hstep.2.1 p.2.inode hji]
            exact hd
          exact ih.2.2 p hmem hreg d hd1

/-- Claim C8: after `create_snapshot` returns, every regular-file entry
of the context directory has permission bits equal to its pre-snapshot
bits ANDed with `0o7555`, while the returned snapshot map records the
pre-masking mode. -/
theorem claim_C8_readonly_mask (fs fs' : FS) (hasL : Bool)
    (snap : List (String × SnapRecord)) (hwf : wfFS fs)
    (h : create_snapshot hasL fs = .ok (fs', snap))
    (k : String) (r : SnapRecord) (hkr : (k, r) ∈ snap) (hreg : r.format = .REG) :
    modeAt fs k = some r.mode ∧ modeAt fs' k = some (r.mode &&& 0o7555) := by
  obtain ⟨hnd, hind, hok, hinj, hres, hhard⟩ := hwf
  unfold create_snapshot at h
  split at h
  · cases h
  · rename_i fs1 hloop
    cases h
    obtain ⟨i, d, hmem, hd, hdf, hr⟩ := scan_reg hok hkr hreg
    have hent : alookup fs.entries k = some (.node i) := alookup_of_mem_nodup hnd hmem
    constructor
    · simp [modeAt, hent, hd, hr]
    · have hentAll : ∀ p ∈ scan_directory fs defaultExcludePaths, p.2.format = .REG →
          alookup fs.entries p.1 = some (.node p.2.inode) := by
        intro p hp hpr
        obtain ⟨j, dj, hmj, hdj, _, hrj⟩ := scan_reg hok hp hpr
        rw [hrj]
        exact alookup_of_mem_nodup hnd hmj
      have hdist : regDistinct (scan_directory fs defaultExcludePaths) := by
        have hkn := scan_keys_nodup fs defaultExcludePaths hnd
        rw [List.Nodup, List.pairwise_map] at hkn
        refine hkn.imp_of_mem ?_
        intro a b ha hb hne hra hrb hii
        obtain ⟨ia, da, hma, _, _, hraeq⟩ := scan_reg hok ha hra
        obtain ⟨ib, db, hmb, _, _, hrbeq⟩ := scan_reg hok hb hrb
        apply hne
        apply hinj (a.1, .node ia) hma (b.1, .node ib) hmb
        have hia : a.2.inode = ia := by rw [hraeq]
        have hib : b.2.inode = ib := by rw [hrbeq]
        simp only [sameNode, decide_eq_true_eq]
        rw [← hia, ← hib]
        exact hii
      have hspec := createLoop_spec hasL _ fs fs' hloop hentAll hdist
      have hc := hspec.2.2 (k, r) hkr hreg d (by rw [hr]; exact hd)
      have hc2 : alookup fs'.inodes i = some { d with mode := r.mode &&& 0o7555 } := by
        have hri : r.inode = i := by rw [hr]
        rw [← hri]
        exact hc
      simp [modeAt, hspec.1, hent, hc2]


/-- Witness for C8: the one-file context `exFS3pre` (mode `0o644`): after
snapshotting, the file's bits are `0o444` while the snapshot records
`0o644`. -/
theorem claim_C8_witness :
    wfFS exFS3pre ∧
    create_snapshot true exFS3pre = .ok (exFS3snapped, exSnap3) ∧
    ("f", (⟨.REG, 420, 1, 7, none⟩ : SnapRecord)) ∈ exSnap3 ∧
    (modeAt exFS3pre "f" = some 420 ∧ modeAt exFS3snapped "f" = some (420 &&& 0o7555)) :=
  ⟨by decide, rfl, by decide,
   claim_C8_readonly_mask exFS3pre exFS3snapped true exSnap3 (by decide) rfl
     "f" ⟨.REG, 420, 1, 7, none⟩ (by decide) rfl⟩

theorem alookup_removeKey_self {κ α : Type} [DecidableEq κ] (l : List (κ × α)) (k : κ) :
    alookup (removeKey l k) k = none := by
  induction l with
  | nil => rfl
  | cons p rest ih =>
    unfold removeKey at ih ⊢
    rw [List.filter_cons]
    by_cases hk : p.1 = k
    · rw [if_neg (by simp [hk])]
      exact ih
    · rw [if_pos (by simp [hk])]
      simp only [alookup, if_neg hk]
      exact ih

theorem alookup_removeKey_ne {κ α : Type} [DecidableEq κ] (l : List (κ × α)) (k k' : κ)
    (h : k' ≠ k) : alookup (removeKey l k) k' = alookup l k' := by
  induction l with
  | nil => rfl
  | cons p rest ih =>
    unfold removeKey at ih ⊢
    rw [List.filter_cons]
    by_cases hk : p.1 = k
    · rw [if_neg (by simp [hk])]
      rw [ih]
      simp only [alookup, if_neg (show p.1 ≠ k' by rw [hk]; exact Ne.symm h)]
    · rw [if_pos (by simp [hk])]
      by_cases hk' : p.1 = k'
      · simp [alookup, hk']
      · simp only [alookup, if_neg hk']
        exact ih

theorem phase1Loop_spec (snap : List (String × SnapRecord)) :
    ∀ (items : List (String × SnapRecord)) (s : FS) (acc : List String),
    (∀ p ∈ items, lexists s p.1 = true) →
    ((items.map Prod.fst).Nodup) →
    (phase1Loop snap s acc items).2 = acc ++ (items.filter (divergesB snap)).map Prod.fst ∧
    (∀ k r, (k, r) ∈ items →
      strip_permissions (some r) ≠ strip_permissions (alookup snap k) →
      alookup (phase1Loop snap s acc items).1.entries k = none) ∧
    (∀ k, (∀ r, (k, r) ∈ items →
        strip_permissions (some r) = strip_permissions (alookup snap k)) →
      alookup (phase1Loop snap s acc items).1.entries k = alookup s.entries k) ∧
    (phase1Loop snap s acc items).1.inodes = s.inodes ∧
    (phase1Loop snap s acc items).1.snapStore = s.snapStore
  | [], s, acc, _, _ => by
    unfold phase1Loop
    exact ⟨by simp, fun k r h => absurd h (List.not_mem_nil _),
      fun k _ => rfl, rfl, rfl⟩
  | (k, r) :: rest, s, acc, hlex, hnd => by
    unfold phase1Loop
    by_cases hdiv : strip_permissions (some r) ≠ strip_permissions (alookup snap k)
    · rw [if_pos hdiv, if_pos (hlex (k, r) (List.mem_cons_self _ _))]
      have hknotin : k ∉ rest.map Prod.fst := (List.nodup_cons.mp hnd).1
      have hlex' : ∀ p ∈ rest, lexists (trashItem s k) p.1 = true := by
        intro p hp
        have hne : p.1 ≠ k := by
          intro hh
          exact hknotin (hh ▸ List.mem_map_of_mem Prod.fst hp)
        show (alookup (removeKey s.entries k) p.1).isSome = true
        rw [alookup_removeKey_ne _ _ _ hne]
        exact hlex p (List.mem_cons_of_mem _ hp)
      have ih := phase1Loop_spec snap rest (trashItem s k) (acc ++ [k]) hlex'
        (List.nodup_cons.mp hnd).2
      refine ⟨?_, ?_, ?_, ih.2.2.2.1, ih.2.2.2.2⟩
      · rw [ih.1]
        simp only [List.filter_cons]
        rw [if_pos (by simpa [divergesB] using hdiv)]
        simp
      · intro k' r' hmem hdiv'
        rcases List.mem_cons.mp hmem with heq | hmem'
        · cases heq
          have hnever : ∀ r'', (k, r'') ∈ rest →
              strip_permissions (some r'') = strip_permissions (alookup snap k) := by
            intro r'' hr''
            exact absurd (List.mem_map_of_mem Prod.fst hr'') hknotin
          rw [ih.2.2.1 k hnever]
          exact alookup_removeKey_self s.entries k
        · exact ih.2.1 k' r' hmem' hdiv'
      · intro k' hall
        have hne : k' ≠ k := by
          intro hh
          subst hh
          exact hdiv (hall r (List.mem_cons_self _ _))
        rw [ih.2.2.1 k' (fun r'' hr'' => hall r'' (List.mem_cons_of_mem _ hr''))]
        exact alookup_removeKey_ne _ _ _ hne
    · rw [if_neg hdiv]
      have ih := phase1Loop_spec snap rest s acc
        (fun p hp => hlex p (List.mem_cons_of_mem _ hp)) (List.nodup_cons.mp hnd).2
      refine ⟨?_, ?_, ?_, ih.2.2.2.1, ih.2.2.2.2⟩
      · rw [ih.1]
        simp only [List.filter_cons]
        rw [if_neg (by simpa [divergesB] using hdiv)]
      · intro k' r' hmem hdiv'
        rcases List.mem_cons.mp hmem with heq | hmem'
        · cases heq
          exact absurd hdiv' hdiv
        · exact ih.2.1 k' r' hmem' hdiv'
      · intro k' hall
        exact ih.2.2.1 k' (fun r'' hr'' => hall r'' (List.mem_cons_of_mem _ hr''))

theorem phase1_mode_blind (snap snap' : List (String × SnapRecord)) (fs : FS)
    (h : ∀ k, strip_permissions (alookup snap' k) = strip_permissions (alookup snap k)) :
    phase1 snap' fs = phase1 snap fs := by
  unfold phase1
  generalize sortByKey (scan_directory fs defaultExcludePaths) = items
  suffices haux : ∀ (items : List (String × SnapRecord)) (s : FS) (acc : List String),
      phase1Loop snap' s acc items = phase1Loop snap s acc items from haux items fs []
  intro items
  induction items with
  | nil => intro s acc; rfl
  | cons p rest ih =>
    intro s acc
    cases p with
    | mk k r =>
      unfold phase1Loop
      rw [h k]
      by_cases hdiv : strip_permissions (some r) ≠ strip_permissions (alookup snap k)
      · rw [if_pos hdiv, if_pos hdiv]
        by_cases hl : lexists s k
        · rw [if_pos hl, if_pos hl, ih]
        · rw [if_neg hl, if_neg hl, ih]
      · rw [if_neg hdiv, if_neg hdiv, ih]

/-- Claim C4: in phase 1 of `restore_snapshot`, a current entry is moved
to the trash can iff its `(format, size, inode, symlink)` tuple differs
from the snapshot record at the same key (a key absent from the snapshot
counts as differing); the mode field never influences the decision
(replacing the snapshot by any permission-stripped-equal one trashes the
same keys), and entries are processed in lexicographic key order. -/
theorem claim_C4_phase1_trash (snap : List (String × SnapRecord)) (fs : FS)
    (hnd : (fs.entries.map Prod.fst).Nodup) :
    (phase1 snap fs).2 =
      ((sortByKey (scan_directory fs defaultExcludePaths)).filter (divergesB snap)).map
        Prod.fst ∧
    (phase1 snap fs).2.Sorted (· ≤ ·) ∧
    (∀ k, k ∈ (phase1 snap fs).2 ↔
      ∃ r, (k, r) ∈ scan_directory fs defaultExcludePaths ∧
        strip_permissions (some r) ≠ strip_permissions (alookup snap k)) ∧
    (∀ snap', (∀ k, strip_permissions (alookup snap' k) =
        strip_permissions (alookup snap k)) →
      (phase1 snap' fs).2 = (phase1 snap fs).2) := by
  have hperm := List.perm_insertionSort (fun a b : String × SnapRecord => a.1 ≤ b.1)
    (scan_directory fs defaultExcludePaths)
  have hsortnd : ((sortByKey (scan_directory fs defaultExcludePaths)).map Prod.fst).Nodup :=
    ((hperm.map Prod.fst).nodup_iff).mpr (scan_keys_nodup fs _ hnd)
  have hlex0 : ∀ p ∈ sortByKey (scan_directory fs defaultExcludePaths),
      lexists fs p.1 = true := by
    intro p hp
    have hmem : p ∈ scan_directory fs defaultExcludePaths := hperm.mem_iff.mp hp
    obtain ⟨e, he, _⟩ := scan_mem hmem
    show (alookup fs.entries p.1).isSome = true
    rw [alookup_of_mem_nodup hnd he]
    rfl
  have hspec := phase1Loop_spec snap (sortByKey (scan_directory fs defaultExcludePaths))
    fs [] hlex0 hsortnd
  have htr : (phase1 snap fs).2 =
      ((sortByKey (scan_directory fs defaultExcludePaths)).filter (divergesB snap)).map
        Prod.fst := by
    have h1 := hspec.1
    rw [List.nil_append] at h1
    exact h1
  refine ⟨htr, ?_, ?_, ?_⟩
  · rw [htr]
    have hsorted : (sortByKey (scan_directory fs defaultExcludePaths)).Pairwise
        (fun a b => a.1 ≤ b.1) :=
      List.sorted_insertionSort _ _
    exact List.pairwise_map.mpr (hsorted.sublist (List.filter_sublist _))
  · intro k
    rw [htr]
    constructor
    · intro hk
      obtain ⟨p, hpf, hpk⟩ := List.mem_map.mp hk
      obtain ⟨hpmem, hpdiv⟩ := List.mem_filter.mp hpf
      refine ⟨p.2, ?_, ?_⟩
      · have : p ∈ scan_directory fs defaultExcludePaths := hperm.mem_iff.mp hpmem
        rw [← hpk]
        exact this
      · rw [← hpk]
        exact of_decide_eq_true hpdiv
    · rintro ⟨r, hr, hdiv⟩
      refine List.mem_map.mpr ⟨(k, r), List.mem_filter.mpr ⟨hperm.mem_iff.mpr hr, ?_⟩, rfl⟩
      exact decide_eq_true hdiv
  · intro snap' hss
    rw [phase1_mode_blind snap snap' fs hss]

/-- Witness for C4: restoring `exSnap3` over the modified context
`exFS3mod` trashes exactly the divergent key `f`. -/
theorem claim_C4_witness :
    (exFS3mod.entries.map Prod.fst).Nodup ∧
    ((phase1 exSnap3 exFS3mod).2 =
      ((sortByKey (scan_directory exFS3mod defaultExcludePaths)).filter
        (divergesB exSnap3)).map Prod.fst ∧
    (phase1 exSnap3 exFS3mod).2.Sorted (· ≤ ·) ∧
    (∀ k, k ∈ (phase1 exSnap3 exFS3mod).2 ↔
      ∃ r, (k, r) ∈ scan_directory exFS3mod defaultExcludePaths ∧
        strip_permissions (some r) ≠ strip_permissions (alookup exSnap3 k)) ∧
    (∀ snap', (∀ k, strip_permissions (alookup snap' k) =
        strip_permissions (alookup exSnap3 k)) →
      (phase1 snap' exFS3mod).2 = (phase1 exSnap3 exFS3mod).2)) :=
  ⟨by decide, claim_C4_phase1_trash exSnap3 exFS3mod (by decide)⟩

theorem existsFollow_mono (fs : FS) :
    ∀ (n m : Nat), n ≤ m → ∀ p, existsFollow fs n p = true → existsFollow fs m p = true := by
  intro n
  induction n with
  | zero => intro m _ p h; cases h
  | succ n ih =>
    intro m hm p h
    obtain ⟨m', rfl⟩ : ∃ m', m = m' + 1 := ⟨m - 1, by omega⟩
    unfold existsFollow at h ⊢
    cases he : alookup fs.entries p with
    | none => rw [he] at h; cases h
    | some e =>
      rw [he] at h
      cases e with
      | dir _ => rfl
      | node _ => rfl
      | symlink t _ => exact ih m' (by omega) t h

theorem isDirFollow_imp_existsFollow (fs : FS) :
    ∀ (n : Nat) (p : String), isDirFollow fs n p = true → existsFollow fs n p = true := by
  intro n
  induction n with
  | zero => intro p h; cases h
  | succ n ih =>
    intro p h
    unfold isDirFollow at h
    unfold existsFollow
    cases he : alookup fs.entries p with
    | none => rw [he] at h; cases h
    | some e =>
      rw [he] at h
      cases e with
      | dir _ => rfl
      | node _ => cases h
      | symlink t _ => exact ih t h

theorem existsFollow_congr {s s' : FS}
    (h : ∀ p, resolutionShape (alookup s'.entries p) = resolutionShape (alookup s.entries p)) :
    ∀ (fuel : Nat) (p : String), existsFollow s' fuel p = existsFollow s fuel p := by
  intro fuel
  induction fuel with
  | zero => intro p; rfl
  | succ n ih =>
    intro p
    have hp := h p
    unfold existsFollow
    cases he : alookup s.entries p with
    | none =>
      rw [he] at hp
      cases he' : alookup s'.entries p with
      | none => rfl
      | some e' => rw [he'] at hp; cases e' <;> simp [resolutionShape] at hp
    | some e =>
      rw [he] at hp
      cases e with
      | dir m =>
        cases he' : alookup s'.entries p with
        | none => rw [he'] at hp; simp [resolutionShape] at hp
        | some e' =>
          rw [he'] at hp
          cases e' <;> simp [resolutionShape] at hp <;> rfl
      | node i =>
        cases he' : alookup s'.entries p with
        | none => rw [he'] at hp; simp [resolutionShape] at hp
        | some e' =>
          rw [he'] at hp
          cases e' <;> simp [resolutionShape] at hp <;> rfl
      | symlink t m =>
        cases he' : alookup s'.entries p with
        | none => rw [he'] at hp; simp [resolutionShape] at hp
        | some e' =>
          rw [he'] at hp
          cases e' with
          | dir _ => simp [resolutionShape] at hp
          | node _ => simp [resolutionShape] at hp
          | symlink t' _ =>
            simp only [resolutionShape, Option.some.injEq] at hp
            rw [hp]
            exact ih t

theorem lchmod_ok_of_lexists {hasL : Bool} {s : FS} {key : String} {mode : Nat}
    (h : lexists s key = true) :
    ∃ s', lchmod hasL s key mode = .ok s' ∧
      (∀ p, resolutionShape (alookup s'.entries p) = resolutionShape (alookup s.entries p)) ∧
      (∀ p, lexists s' p = lexists s p) ∧
      s'.snapStore = s.snapStore := by
  unfold lexists at h
  cases he : alookup s.entries key with
  | none => rw [he] at h; cases h
  | some e =>
    have hmain : ∀ (e' : FSEntry) (s' : FS),
        s'.entries = upsert s.entries key e' →
        s'.snapStore = s.snapStore →
        resolutionShape (some e') = resolutionShape (some e) →
        (∀ p, resolutionShape (alookup s'.entries p) = resolutionShape (alookup s.entries p)) ∧
        (∀ p, lexists s' p = lexists s p) ∧ s'.snapStore = s.snapStore := by
      intro e' s' hse hss hsh
      refine ⟨?_, ?_, hss⟩
      · intro p
        rw [hse]
        by_cases hp : p = key
        · subst hp
          rw [alookup_upsert_self, he, hsh]
        · rw [alookup_upsert_ne _ _ _ _ hp]
      · intro p
        unfold lexists
        rw [hse]
        by_cases hp : p = key
        · subst hp
          rw [alookup_upsert_self, he]
          rfl
        · rw [alookup_upsert_ne _ _ _ _ hp]
    cases e with
    | symlink t m =>
      cases hasL with
      | false => exact ⟨s, by simp [lchmod, he], fun p => rfl, fun p => rfl, rfl⟩
      | true =>
        refine ⟨{ s with entries := upsert s.entries key (.symlink t mode) },
          by simp [lchmod, he], ?_⟩
        exact hmain (.symlink t mode) _ rfl rfl rfl
    | dir m =>
      refine ⟨{ s with entries := upsert s.entries key (.dir mode) },
        by simp [lchmod, he], ?_⟩
      exact hmain (.dir mode) _ rfl rfl rfl
    | node i =>
      cases hi : alookup s.inodes i with
      | some d =>
        exact ⟨{ s with inodes := upsert s.inodes i { d with mode := mode } },
          by simp [lchmod, he, hi], fun p => rfl, fun p => rfl, rfl⟩
      | none => exact ⟨s, by simp [lchmod, he, hi], fun p => rfl, fun p => rfl, rfl⟩

theorem phase2step_error_of_dangling {hasL : Bool} {s : FS} {k : String} {r : SnapRecord}
    (hex : path_exists s k = false) (hlx : lexists s k = true) :
    ∃ msg, phase2step hasL s (k, r) = .error msg := by
  unfold phase2step phase2create
  rw [hex]
  simp only [Bool.false_eq_true, if_false]
  cases r.format with
  | DIR => exact ⟨_, by rw [hlx]; rfl⟩
  | LNK =>
    cases r.symlink with
    | none => exact ⟨_, rfl⟩
    | some t => exact ⟨_, by rw [hlx]; rfl⟩
  | REG =>
    cases alookup s.snapStore r.inode with
    | none => exact ⟨_, rfl⟩
    | some ino => exact ⟨_, by rw [hlx]; rfl⟩
  | BLK =>
    cases alookup s.snapStore r.inode with
    | none => exact ⟨_, rfl⟩
    | some ino => exact ⟨_, by rw [hlx]; rfl⟩
  | CHR =>
    cases alookup s.snapStore r.inode with
    | none => exact ⟨_, rfl⟩
    | some ino => exact ⟨_, by rw [hlx]; rfl⟩
  | FIFO =>
    cases alookup s.snapStore r.inode with
    | none => exact ⟨_, rfl⟩
    | some ino => exact ⟨_, by rw [hlx]; rfl⟩
  | SOCK =>
    cases alookup s.snapStore r.inode with
    | none => exact ⟨_, rfl⟩
    | some ino => exact ⟨_, by rw [hlx]; rfl⟩

theorem phase2Loop_error (hasL : Bool) :
    ∀ (l : List (String × SnapRecord)) (s : FS),
    (∀ p ∈ l, lexists s p.1 = true) →
    (∃ p ∈ l, path_exists s p.1 = false) →
    ∃ msg, phase2Loop hasL s l = .error msg
  | [], s, _, hex => by
    obtain ⟨p, hp, _⟩ := hex
    exact absurd hp (List.not_mem_nil p)
  | (k, r) :: rest, s, hlx, hex => by
    unfold phase2Loop
    by_cases hk : path_exists s k = true
    · have hstep : phase2step hasL s (k, r) = lchmod hasL s k r.mode := by
        unfold phase2step phase2create
        rw [hk]
        rfl
      obtain ⟨s', hok, hshape, hlxp, _⟩ :=
        @lchmod_ok_of_lexists hasL s k r.mode
          (hlx (k, r) (List.mem_cons_self _ _))
      rw [hstep, hok]
      have hexq : ∃ p ∈ rest, path_exists s' p.1 = false := by
        obtain ⟨p, hp, hpe⟩ := hex
        rcases List.mem_cons.mp hp with heq | hmem
        · cases heq
          rw [hpe] at hk
          cases hk
        · refine ⟨p, hmem, ?_⟩
          show existsFollow s' symlinkFuel p.1 = false
          rw [existsFollow_congr hshape]
          exact hpe
      exact phase2Loop_error hasL rest s'
        (fun p hp => by rw [hlxp]; exact hlx p (List.mem_cons_of_mem _ hp)) hexq
    · have hk' : path_exists s k = false := by
        cases hv : path_exists s k
        · rfl
        · exact absurd hv hk
      obtain ⟨msg, hmsg⟩ := @phase2step_error_of_dangling hasL s k r hk'
        (hlx (k, r) (List.mem_cons_self _ _))
      rw [hmsg]
      exact ⟨msg, rfl⟩

theorem scan_mem_intro {fs : FS} {excl : List String} {k : String} {e : FSEntry}
    (he : (k, e) ∈ fs.entries) (hw : walkIsDir fs e = false) :
    (k, stat_item fs e) ∈ scan_directory fs excl := by
  unfold scan_directory
  exact List.mem_filterMap.mpr ⟨(k, e), he, by simp [hw]⟩

/-- Claim C10: when the context still matches its snapshot but contains a
symlink whose target does not exist, phase 1 trashes nothing (the records
match), yet phase 2 judges the key missing via the symlink-following
`os.path.exists` test and attempts to recreate it over the still-present
link, so `restore_snapshot` fails even though the context is unchanged. -/
theorem claim_C10_dangling_link (hasL : Bool) (fs : FS) (hwf : wfFS fs)
    (k t : String) (m : Nat)
    (hk : (k, FSEntry.symlink t m) ∈ fs.entries)
    (hdang : path_exists fs t = false) :
    (phase1 (scan_directory fs defaultExcludePaths) fs).2 = [] ∧
    ∃ msg, restore_snapshot hasL (scan_directory fs defaultExcludePaths) fs = .error msg := by
  obtain ⟨hnd, _, _, _, _, _⟩ := hwf
  unfold path_exists at hdang
  have hsnodup := scan_keys_nodup fs defaultExcludePaths hnd
  have hperm := List.perm_insertionSort (fun a b : String × SnapRecord => a.1 ≤ b.1)
    (scan_directory fs defaultExcludePaths)
  have hsortnd : ((sortByKey (scan_directory fs defaultExcludePaths)).map Prod.fst).Nodup :=
    ((hperm.map Prod.fst).nodup_iff).mpr hsnodup
  have hlex0 : ∀ p ∈ sortByKey (scan_directory fs defaultExcludePaths),
      lexists fs p.1 = true := by
    intro p hp
    obtain ⟨e, he, _⟩ := scan_mem (hperm.mem_iff.mp hp)
    show (alookup fs.entries p.1).isSome = true
    rw [alookup_of_mem_nodup hnd he]
    rfl
  have hspec := phase1Loop_spec (scan_directory fs defaultExcludePaths)
    (sortByKey (scan_directory fs defaultExcludePaths)) fs [] hlex0 hsortnd
  have hmatch : ∀ k' r', (k', r') ∈ sortByKey (scan_directory fs defaultExcludePaths) →
      strip_permissions (some r') =
        strip_permissions (alookup (scan_directory fs defaultExcludePaths) k') := by
    intro k' r' hp
    rw [alookup_of_mem_nodup hsnodup (hperm.mem_iff.mp hp)]
  have htr : (phase1 (scan_directory fs defaultExcludePaths) fs).2 = [] := by
    unfold phase1
    have h1 := hspec.1
    rw [List.nil_append] at h1
    have hfil : (sortByKey (scan_directory fs defaultExcludePaths)).filter
        (divergesB (scan_directory fs defaultExcludePaths)) = [] := by
      rw [List.filter_eq_nil_iff]
      intro p hp
      simp only [divergesB, decide_eq_true_eq, Decidable.not_not]
      exact hmatch p.1 p.2 hp
    rw [h1, hfil]
    rfl
  have henteq : ∀ k', alookup (phase1 (scan_directory fs defaultExcludePaths) fs).1.entries k' =
      alookup fs.entries k' := by
    intro k'
    exact hspec.2.2.1 k' (fun r'' hr'' => hmatch k' r'' hr'')
  have hshape : ∀ p, resolutionShape
      (alookup (phase1 (scan_directory fs defaultExcludePaths) fs).1.entries p) =
      resolutionShape (alookup fs.entries p) := by
    intro p
    rw [henteq p]
  refine ⟨htr, ?_⟩
  have hwd : walkIsDir fs (FSEntry.symlink t m) = false := by
    show isDirFollow fs symlinkFuel t = false
    cases hv : isDirFollow fs symlinkFuel t
    · rfl
    · rw [isDirFollow_imp_existsFollow fs symlinkFuel t hv] at hdang
      exact hdang
  have hscanmem : (k, stat_item fs (FSEntry.symlink t m)) ∈
      scan_directory fs defaultExcludePaths := scan_mem_intro hk hwd
  have hkex : path_exists fs k = false := by
    show existsFollow fs symlinkFuel k = false
    have hent : alookup fs.entries k = some (FSEntry.symlink t m) :=
      alookup_of_mem_nodup hnd hk
    show existsFollow fs (39 + 1) k = false
    unfold existsFollow
    rw [hent]
    show existsFollow fs 39 t = false
    cases hv : existsFollow fs 39 t
    · rfl
    · rw [existsFollow_mono fs 39 symlinkFuel (by decide) t hv] at hdang
      exact hdang
  obtain ⟨msg, hmsg⟩ := phase2Loop_error hasL
    (sortByKey (scan_directory fs defaultExcludePaths))
    (phase1 (scan_directory fs defaultExcludePaths) fs).1
    (by
      intro p hp
      show (alookup _ p.1).isSome = true
      rw [henteq p.1]
      exact hlex0 p hp)
    (by
      refine ⟨(k, stat_item fs (FSEntry.symlink t m)), hperm.mem_iff.mpr hscanmem, ?_⟩
      show existsFollow _ symlinkFuel k = false
      rw [existsFollow_congr hshape]
      exact hkex)
  refine ⟨msg, ?_⟩
  unfold restore_snapshot
  rw [hmsg]


/-- Witness for C10: one dangling symlink `l -> gone`; restoring the very
snapshot just scanned fails. -/
theorem claim_C10_witness :
    wfFS exFS10 ∧ ("l", FSEntry.symlink "gone" 511) ∈ exFS10.entries ∧
    path_exists exFS10 "gone" = false ∧
    ((phase1 (scan_directory exFS10 defaultExcludePaths) exFS10).2 = [] ∧
     ∃ msg, restore_snapshot true (scan_directory exFS10 defaultExcludePaths) exFS10 =
       .error msg) :=
  ⟨by decide, by decide, by decide,
   claim_C10_dangling_link true exFS10 (by decide) "l" "gone" 511 (by decide) (by decide)⟩

/-- Claim C5 (amended): the `symlink` field of a scan record is the
link's target string only for symlinks that the walk classifies as files;
a symlink whose target resolves to a directory goes through the
`dir_names` branch, which records `None` in the `symlink` field (format
still `LNK`); every non-symlink entry has a `None` symlink field and a
non-`LNK` format. -/
theorem claim_C5_symlink_field (fs : FS) (excl : List String) (hwf : wfFS fs)
    (k : String) (r : SnapRecord) (h : (k, r) ∈ scan_directory fs excl) :
    ∃ e, alookup fs.entries k = some e ∧
      (match e with
       | FSEntry.symlink t _ =>
           r.format = .LNK ∧
           r.symlink = (if isDirFollow fs symlinkFuel t then none else some t)
       | _ => r.format ≠ .LNK ∧ r.symlink = none) := by
  obtain ⟨hnd, _, _, _, _, hhard⟩ := hwf
  obtain ⟨e, hmem, hcase⟩ := scan_mem h
  refine ⟨e, alookup_of_mem_nodup hnd hmem, ?_⟩
  cases e with
  | dir m =>
    rcases hcase with ⟨_, _, hr⟩ | ⟨hw, _⟩
    · rw [hr]
      exact ⟨by simp [stat_item], rfl⟩
    · simp [walkIsDir] at hw
  | node i =>
    rcases hcase with ⟨hw, _, _⟩ | ⟨_, hr⟩
    · simp [walkIsDir] at hw
    · rw [hr]
      cases hd : alookup fs.inodes i with
      | none => exact ⟨by simp [stat_item, hd], by simp [stat_item, hd]⟩
      | some d =>
        have hdh := hhard (i, d) (mem_of_alookup hd)
        refine ⟨?_, by simp [stat_item, hd]⟩
        simp only [stat_item, hd]
        intro hcon
        rw [hcon] at hdh
        cases hdh
  | symlink t m =>
    rcases hcase with ⟨hw, _, hr⟩ | ⟨hw, hr⟩
    · have hwd : isDirFollow fs symlinkFuel t = true := hw
      rw [hr]
      exact ⟨rfl, by simp [stat_item, hwd]⟩
    · have hwd : isDirFollow fs symlinkFuel t = false := hw
      rw [hr]
      exact ⟨rfl, by simp [stat_item, hwd]⟩

/-- Witness for the amended C5: the symlink-to-directory `l -> d` of
`exFS5` is recorded with format `LNK` and `symlink := none`. -/
theorem claim_C5_witness :
    wfFS exFS5 ∧
    ("l", (⟨.LNK, 511, 1, 0, none⟩ : SnapRecord)) ∈ scan_directory exFS5 defaultExcludePaths ∧
    (∃ e, alookup exFS5.entries "l" = some e ∧
      (match e with
       | FSEntry.symlink t _ =>
           (⟨.LNK, 511, 1, 0, none⟩ : SnapRecord).format = .LNK ∧
           (⟨.LNK, 511, 1, 0, none⟩ : SnapRecord).symlink =
             (if isDirFollow exFS5 symlinkFuel t then none else some t)
       | _ => (⟨.LNK, 511, 1, 0, none⟩ : SnapRecord).format ≠ .LNK ∧
           (⟨.LNK, 511, 1, 0, none⟩ : SnapRecord).symlink = none)) :=
  ⟨by decide, by decide,
   claim_C5_symlink_field exFS5 defaultExcludePaths (by decide) "l"
     ⟨.LNK, 511, 1, 0, none⟩ (by decide)⟩

/-- Claim C1 (amended): after a successful `revert_one` with a fresh event
id, the chain that was read splits as `pre ++ sev :: suf` with `sev` the
newest `started` event; the head file now holds `sev`'s parent id, so
`get_status` reports the status of the truncated chain `suf` — the status
that held before the reverted run — not `"reverted"`. -/
theorem claim_C1_revert_status {hasL : Bool} {w : World} {f : String}
    (hfresh : hasKey w.log.db f = false) {w' : World} {tr : List String}
    (hrev : revert_one hasL w f = .ok (w', tr)) :
    ∃ (ch pre suf : List Event) (sev : Event),
      read_log w.log = .ok { w.log with cache := some ch } ∧
      ch = pre ++ sev :: suf ∧ sev.what = .started ∧
      (∀ e ∈ pre, e.what ≠ .started) ∧
      w'.log.head = some sev.parent_event_id ∧
      get_status w'.log = .ok (statusOfChain suf) := by
  obtain ⟨ch, pre, suf, sev, h1, h2, h3, h4, hex, hhd, _, hc, hrl⟩ :=
    revert_one_spec hfresh hrev
  exact ⟨ch, pre, suf, sev, h1, h2, h3, h4, hhd, get_status_of_cache hex hc hrl⟩

theorem claim_C1_witness :
    hasKey exWorld1.log.db "r" = false ∧
    (∃ (ch pre suf : List Event) (sev : Event),
      read_log exWorld1.log = .ok { exWorld1.log with cache := some ch } ∧
      ch = pre ++ sev :: suf ∧ sev.what = .started ∧
      (∀ e ∈ pre, e.what ≠ .started) ∧
      exWorld1Rev.log.head = some sev.parent_event_id ∧
      get_status exWorld1Rev.log = .ok (statusOfChain suf)) :=
  ⟨rfl, claim_C1_revert_status (show hasKey exWorld1.log.db "r" = false from rfl)
    (show revert_one true exWorld1 "r" = .ok (exWorld1Rev, []) from rfl)⟩

/-- Claim C2 (amended): the event store is append-only — a successful
`revert_one` with a fresh event id appends exactly one new `reverted`
event under that id and leaves every existing event untouched — but the
head file afterwards names the newest `started` event's parent (an event
strictly inside the pre-existing chain, or null), not the newly appended
event. -/
theorem claim_C2_append_only {hasL : Bool} {w : World} {f : String}
    (hfresh : hasKey w.log.db f = false) {w' : World} {tr : List String}
    (hrev : revert_one hasL w f = .ok (w', tr)) :
    ∃ rev : Event, rev.id = f ∧ rev.what = .reverted ∧
      w'.log.db = w.log.db ++ [(f, rev)] ∧
      (∀ k, hasKey w.log.db k = true → alookup w'.log.db k = alookup w.log.db k) ∧
      ∃ (ch pre suf : List Event) (sev : Event),
        read_log w.log = .ok { w.log with cache := some ch } ∧
        ch = pre ++ sev :: suf ∧ sev.what = .started ∧
        (∀ e ∈ pre, e.what ≠ .started) ∧
        w'.log.head = some sev.parent_event_id := by
  obtain ⟨ch, pre, suf, sev, h1, h2, h3, h4, _, hhd, ⟨rev, hid, hwhat, hdb⟩, _, _⟩ :=
    revert_one_spec hfresh hrev
  refine ⟨rev, hid, hwhat, hdb, ?_, ch, pre, suf, sev, h1, h2, h3, h4, hhd⟩
  intro k hk
  rw [hdb]
  exact alookup_append_left hk

theorem claim_C2_witness :
    hasKey exWorld1.log.db "r" = false ∧
    (∃ rev : Event, rev.id = "r" ∧ rev.what = .reverted ∧
      exWorld1Rev.log.db = exWorld1.log.db ++ [("r", rev)] ∧
      (∀ k, hasKey exWorld1.log.db k = true →
        alookup exWorld1Rev.log.db k = alookup exWorld1.log.db k) ∧
      ∃ (ch pre suf : List Event) (sev : Event),
        read_log exWorld1.log = .ok { exWorld1.log with cache := some ch } ∧
        ch = pre ++ sev :: suf ∧ sev.what = .started ∧
        (∀ e ∈ pre, e.what ≠ .started) ∧
        exWorld1Rev.log.head = some sev.parent_event_id) :=
  ⟨rfl, claim_C2_append_only (show hasKey exWorld1.log.db "r" = false from rfl)
    (show revert_one true exWorld1 "r" = .ok (exWorld1Rev, []) from rfl)⟩

theorem alookup_eq_none {κ α : Type} [DecidableEq κ] {l : List (κ × α)} {k : κ}
    (h : ∀ p ∈ l, p.1 ≠ k) : alookup l k = none := by
  induction l with
  | nil => rfl
  | cons p rest ih =>
    have hp : p.1 ≠ k := h p (List.mem_cons_self _ _)
    simp only [alookup, if_neg hp]
    exact ih fun q hq => h q (List.mem_cons_of_mem _ hq)

theorem mem_keys_upsert {κ α : Type} [DecidableEq κ] {l : List (κ × α)} {k a : κ} {v : α}
    (h : a ∈ (upsert l k v).map Prod.fst) : a ∈ l.map Prod.fst ∨ a = k := by
  induction l with
  | nil =>
    simp only [upsert, List.map_cons, List.map_nil, List.mem_singleton] at h
    exact Or.inr h
  | cons p rest ih =>
    by_cases hk : p.1 = k
    · simp only [upsert, if_pos hk, List.map_cons, List.mem_cons] at h
      rcases h with rfl | h
      · exact Or.inr rfl
      · exact Or.inl (by simp only [List.map_cons, List.mem_cons]; exact Or.inr h)
    · simp only [upsert, if_neg hk, List.map_cons, List.mem_cons] at h
      rcases h with rfl | h
      · exact Or.inl (by simp)
      · rcases ih h with h' | h'
        · exact Or.inl (by simp only [List.map_cons, List.mem_cons]; exact Or.inr h')
        · exact Or.inr h'

theorem upsert_keys_nodup {κ α : Type} [DecidableEq κ] {l : List (κ × α)} (k : κ) (v : α)
    (h : (l.map Prod.fst).Nodup) : ((upsert l k v).map Prod.fst).Nodup := by
  induction l with
  | nil => simp [upsert]
  | cons p rest ih =>
    rw [List.map_cons, List.nodup_cons] at h
    by_cases hk : p.1 = k
    · simp only [upsert, if_pos hk, List.map_cons, List.nodup_cons]
      exact ⟨by rw [← hk]; exact h.1, h.2⟩
    · simp only [upsert, if_neg hk, List.map_cons, List.nodup_cons]
      refine ⟨fun hmem => ?_, ih h.2⟩
      rcases mem_keys_upsert hmem with h' | h'
      · exact h.1 h'
      · exact hk h'

theorem phase1Loop_entries_sublist (snap : List (String × SnapRecord)) :
    ∀ (items : List (String × SnapRecord)) (s : FS) (acc : List String),
    (phase1Loop snap s acc items).1.entries.Sublist s.entries
  | [], s, acc => by
    unfold phase1Loop
    exact List.Sublist.refl _
  | (key, record) :: rest, s, acc => by
    unfold phase1Loop
    split
    · split
      · exact (phase1Loop_entries_sublist snap rest (trashItem s key) (acc ++ [key])).trans
          (List.filter_sublist _)
      · exact phase1Loop_entries_sublist snap rest s acc
    · exact phase1Loop_entries_sublist snap rest s acc

theorem alookup_scan_aux (fs : FS) (excl : List String) :
    ∀ (L : List (String × FSEntry)), (L.map Prod.fst).Nodup → ∀ k,
    alookup (L.filterMap fun p =>
      if walkIsDir fs p.2 then
        if p.1 ∈ excl then none
        else some (p.1, { stat_item fs p.2 with symlink := none })
      else some (p.1, stat_item fs p.2)) k =
    match alookup L k with
    | none => none
    | some e =>
      if walkIsDir fs e then
        if k ∈ excl then none else some { stat_item fs e with symlink := none }
      else some (stat_item fs e)
  | [], _, k => rfl
  | (a, e) :: rest, hnd, k => by
    rw [List.map_cons, List.nodup_cons] at hnd
    have ihr := alookup_scan_aux fs excl rest hnd.2 k
    by_cases hak : a = k
    · subst hak
      have hra : alookup ((a, e) :: rest) a = some e := by simp [alookup]
      have hnone : alookup (rest.filterMap fun p =>
          if walkIsDir fs p.2 then
            if p.1 ∈ excl then none
            else some (p.1, { stat_item fs p.2 with symlink := none })
          else some (p.1, stat_item fs p.2)) a = none := by
        apply alookup_eq_none
        intro q hq
        rw [List.mem_filterMap] at hq
        obtain ⟨p, hp, hfp⟩ := hq
        have hq1 : q.1 = p.1 := by
          by_cases hw : walkIsDir fs p.2
          · by_cases hx : p.1 ∈ excl
            · simp [hw, hx] at hfp
            · simp only [hw, if_true, if_neg hx, Option.some.injEq] at hfp
              rw [← hfp]
          · simp only [hw, Bool.false_eq_true, if_false, Option.some.injEq] at hfp
            rw [← hfp]
        rw [hq1]
        intro hcontra
        have hmem : p.1 ∈ rest.map Prod.fst := List.mem_map_of_mem Prod.fst hp
        rw [hcontra] at hmem
        exact hnd.1 hmem
      simp only [hra, List.filterMap_cons]
      by_cases hw : walkIsDir fs e
      · by_cases hx : a ∈ excl
        · simp only [hw, if_true, if_pos hx]
          exact hnone
        · simp only [hw, if_true, if_neg hx]
          simp [alookup]
      · simp only [hw, Bool.false_eq_true, if_false]
        simp [alookup]
    · have hra : alookup ((a, e) :: rest) k = alookup rest k := by
        simp [alookup, hak]
      simp only [hra, List.filterMap_cons]
      by_cases hw : walkIsDir fs e
      · by_cases hx : a ∈ excl
        · simp only [hw, if_true, if_pos hx]
          exact ihr
        · simp only [hw, if_true, if_neg hx, alookup, if_neg hak]
          exact ihr
      · simp only [hw, Bool.false_eq_true, if_false, alookup, if_neg hak]
        exact ihr

theorem alookup_scan {fs : FS} (excl : List String)
    (hnd : (fs.entries.map Prod.fst).Nodup) (k : String) :
    alookup (scan_directory fs excl) k =
    match alookup fs.entries k with
    | none => none
    | some e =>
      if walkIsDir fs e then
        if k ∈ excl then none else some { stat_item fs e with symlink := none }
      else some (stat_item fs e) := by
  unfold scan_directory
  exact alookup_scan_aux fs excl fs.entries hnd k

theorem restoredAt_congr {s s' : FS} {k : String} {r : SnapRecord}
    (h : restoredAt s k r)
    (hent : alookup s'.entries k = alookup s.entries k)
    (hino : hardFmt r.format = true →
      alookup s'.inodes r.inode = alookup s.inodes r.inode) :
    restoredAt s' k r := by
  obtain ⟨h1, h2, h3⟩ := h
  refine ⟨fun hd => ?_, fun hl => ?_, fun hh => ?_⟩
  · rw [hent]; exact h1 hd
  · obtain ⟨t, ht, he⟩ := h2 hl
    exact ⟨t, ht, by rw [hent]; exact he⟩
  · obtain ⟨he, sz, hi, hsz⟩ := h3 hh
    exact ⟨by rw [hent]; exact he, sz, by rw [hino hh]; exact hi, hsz⟩

theorem alookup_isSome_of_mem {κ α : Type} [DecidableEq κ] {l : List (κ × α)} {k : κ}
    {v : α} (h : (k, v) ∈ l) : (alookup l k).isSome = true := by
  induction l with
  | nil => cases h
  | cons p rest ih =>
    by_cases hk : p.1 = k
    · simp [alookup, hk]
    · simp only [alookup, if_neg hk]
      rcases List.mem_cons.mp h with heq | hmem
      · rw [← heq] at hk
        exact absurd rfl hk
      · exact ih hmem

/-- Every entry that survives phase 1 of a restore was already present,
and the snapshot holds a record at its key whose permission-stripped tuple
agrees with the entry's scan record. -/
theorem survivor_spec {fs : FS} {S : List (String × SnapRecord)}
    (hwf : wfFS fs) (hshape : ∀ p ∈ S, recShape p.2 = true) :
    ∀ k e, alookup (phase1 S fs).1.entries k = some e →
    alookup fs.entries k = some e ∧
    ∃ r, alookup S k = some r ∧
      ((∃ m, e = .dir m ∧ r.format = .DIR) ∨
       (∃ t m, e = .symlink t m ∧ r.format = .LNK ∧ r.symlink = some t) ∨
       (∃ i d, e = .node i ∧ alookup fs.inodes i = some d ∧ r.format = d.format ∧
         r.inode = i ∧ (d.format = .REG → r.size = d.size))) := by
  obtain ⟨hnd, hndI, hEok, hinj, hrsv, hIh⟩ := hwf
  have hsnodup := scan_keys_nodup fs defaultExcludePaths hnd
  have hperm := List.perm_insertionSort (fun a b : String × SnapRecord => a.1 ≤ b.1)
    (scan_directory fs defaultExcludePaths)
  have hsortnd : ((sortByKey (scan_directory fs defaultExcludePaths)).map Prod.fst).Nodup :=
    ((hperm.map Prod.fst).nodup_iff).mpr hsnodup
  have hlex : ∀ p ∈ sortByKey (scan_directory fs defaultExcludePaths),
      lexists fs p.1 = true := by
    intro p hp
    have hpscan : p ∈ scan_directory fs defaultExcludePaths := hperm.subset hp
    obtain ⟨e, hmem, -⟩ := scan_mem (show (p.1, p.2) ∈ _ from hpscan)
    unfold lexists
    exact alookup_isSome_of_mem hmem
  obtain ⟨-, hdiv, hkeep, -, -⟩ :=
    phase1Loop_spec S (sortByKey (scan_directory fs defaultExcludePaths)) fs [] hlex hsortnd
  intro k e hke
  unfold phase1 at hke
  have hall : ∀ rec, (k, rec) ∈ sortByKey (scan_directory fs defaultExcludePaths) →
      strip_permissions (some rec) = strip_permissions (alookup S k) := by
    intro rec hrec
    by_contra hne
    rw [hdiv k rec hrec hne] at hke
    cases hke
  rw [hkeep k hall] at hke
  refine ⟨hke, ?_⟩
  have hkexcl : k ∉ defaultExcludePaths := hrsv (k, e) (mem_of_alookup hke)
  have hscan := alookup_scan defaultExcludePaths hnd k
  simp only [hke] at hscan
  by_cases hw : walkIsDir fs e
  · rw [if_pos hw, if_neg hkexcl] at hscan
    have hmemscan : (k, { stat_item fs e with symlink := none }) ∈
        sortByKey (scan_directory fs defaultExcludePaths) :=
      hperm.mem_iff.mpr (mem_of_alookup hscan)
    have hmatch := hall _ hmemscan
    cases e with
    | dir m =>
      cases halS : alookup S k with
      | none => rw [halS] at hmatch; cases hmatch
      | some r =>
        rw [halS] at hmatch
        simp only [strip_permissions, stat_item, Option.some.injEq, Prod.mk.injEq] at hmatch
        exact ⟨r, rfl, Or.inl ⟨m, rfl, hmatch.1.symm⟩⟩
    | symlink t m =>
      cases halS : alookup S k with
      | none => rw [halS] at hmatch; cases hmatch
      | some r =>
        rw [halS] at hmatch
        simp only [strip_permissions, stat_item, Option.some.injEq, Prod.mk.injEq] at hmatch
        have hsh := hshape (k, r) (mem_of_alookup halS)
        unfold recShape at hsh
        rw [← hmatch.1, ← hmatch.2.2.2] at hsh
        cases hsh
    | node i =>
      exfalso
      unfold walkIsDir at hw
      cases hw
  · rw [if_neg hw] at hscan
    have hmemscan : (k, stat_item fs e) ∈
        sortByKey (scan_directory fs defaultExcludePaths) :=
      hperm.mem_iff.mpr (mem_of_alookup hscan)
    have hmatch := hall _ hmemscan
    cases e with
    | dir m =>
      exfalso
      unfold walkIsDir at hw
      cases hw rfl
    | symlink t m =>
      cases halS : alookup S k with
      | none => rw [halS] at hmatch; cases hmatch
      | some r =>
        rw [halS] at hmatch
        simp only [strip_permissions, stat_item, Option.some.injEq, Prod.mk.injEq] at hmatch
        exact ⟨r, rfl, Or.inr (Or.inl ⟨t, m, rfl, hmatch.1.symm, hmatch.2.2.2.symm⟩)⟩
    | node i =>
      have hek := mem_of_alookup hke
      have hok := hEok (k, FSEntry.node i) hek
      simp only [entryInodeOk] at hok
      cases hd : alookup fs.inodes i with
      | none => rw [hd] at hok; simp at hok
      | some d =>
        cases halS : alookup S k with
        | none =>
          rw [halS] at hmatch
          simp only [strip_permissions, stat_item, hd] at hmatch
          cases hmatch
        | some r =>
          rw [halS] at hmatch
          simp only [strip_permissions, stat_item, hd, Option.some.injEq,
            Prod.mk.injEq] at hmatch
          refine ⟨r, rfl, Or.inr (Or.inr ⟨i, d, rfl, hd, hmatch.1.symm,
            hmatch.2.2.1.symm, fun hreg => ?_⟩)⟩
          rw [← hmatch.2.1, hreg]
          simp

theorem existsFollow_none {s : FS} {p : String} (h : alookup s.entries p = none) :
    ∀ n, existsFollow s n p = false
  | 0 => rfl
  | n + 1 => by
    unfold existsFollow
    rw [h]

/-- One phase-2 step, on a key whose entry either survived phase 1 (and
therefore agrees with the snapshot record) or is absent: the step succeeds
only by realizing the record at the key, touching no other path and no
other inode. -/
theorem phase2step_restore {fs fs1 : FS} {S : List (String × SnapRecord)}
    (hshape : ∀ p ∈ S, recShape p.2 = true)
    (hint : intact fs S)
    (hIhard : ∀ q ∈ fs.inodes, hardFmt q.2.format = true)
    (hSnd : (S.map Prod.fst).Nodup)
    (hsurv : ∀ k e, alookup fs1.entries k = some e →
      alookup fs.entries k = some e ∧
      ∃ r, alookup S k = some r ∧
        ((∃ m, e = .dir m ∧ r.format = .DIR) ∨
         (∃ t m, e = .symlink t m ∧ r.format = .LNK ∧ r.symlink = some t) ∨
         (∃ i d, e = .node i ∧ alookup fs.inodes i = some d ∧ r.format = d.format ∧
           r.inode = i ∧ (d.format = .REG → r.size = d.size))))
    {s s3 : FS} {k : String} {r : SnapRecord}
    (hstep : phase2step true s (k, r) = .ok s3)
    (hmemS : (k, r) ∈ S)
    (hkent : alookup s.entries k = alookup fs1.entries k)
    (hkino : hardFmt r.format = true →
      alookup s.inodes r.inode = alookup fs.inodes r.inode)
    (hstore : s.snapStore = fs.snapStore)
    (hnd : (s.entries.map Prod.fst).Nodup) :
    restoredAt s3 k r ∧
    (∀ k', k' ≠ k → alookup s3.entries k' = alookup s.entries k') ∧
    (∀ i, ¬(hardFmt r.format = true ∧ r.inode = i) →
      alookup s3.inodes i = alookup s.inodes i) ∧
    s3.snapStore = s.snapStore ∧
    (s3.entries.map Prod.fst).Nodup := by
  have halS : alookup S k = some r := alookup_of_mem_nodup hSnd hmemS
  unfold phase2step at hstep
  cases hcr : phase2create s k r with
  | error e =>
    simp only [hcr] at hstep
    cases hstep
  | ok s2 =>
  simp only [hcr] at hstep
  unfold phase2create at hcr
  cases hpe : path_exists s k with
  | true =>
    rw [hpe] at hcr
    simp only [if_true] at hcr
    cases hcr
    cases halk : alookup s.entries k with
    | none =>
      exfalso
      unfold path_exists at hpe
      rw [existsFollow_none halk symlinkFuel] at hpe
      cases hpe
    | some e =>
    rw [halk] at hkent
    obtain ⟨hfse, r', halS', hclass⟩ := hsurv k e hkent.symm
    rw [halS] at halS'
    injection halS' with halS'
    subst halS'
    rcases hclass with ⟨m, he, hfmt⟩ | ⟨t, m, he, hfmt, hsym⟩ |
      ⟨i, d, he, hd, hfmt, hino, hsz⟩
    · subst he
      have hlch : lchmod true s k r.mode =
          .ok { s with entries := upsert s.entries k (.dir r.mode) } := by
        simp only [lchmod, halk]
      rw [hlch] at hstep
      cases hstep
      refine ⟨⟨fun _ => alookup_upsert_self _ _ _, fun hl => ?_, fun hh => ?_⟩,
        fun k' hk' => alookup_upsert_ne _ _ _ _ hk', fun i _ => rfl, rfl,
        upsert_keys_nodup _ _ hnd⟩
      · rw [hfmt] at hl; cases hl
      · rw [hfmt] at hh; cases hh
    · subst he
      have hlch : lchmod true s k r.mode =
          .ok { s with entries := upsert s.entries k (.symlink t r.mode) } := by
        simp only [lchmod, halk, if_true]
      rw [hlch] at hstep
      cases hstep
      refine ⟨⟨fun hl => ?_, fun _ => ⟨t, hsym, alookup_upsert_self _ _ _⟩, fun hh => ?_⟩,
        fun k' hk' => alookup_upsert_ne _ _ _ _ hk', fun i _ => rfl, rfl,
        upsert_keys_nodup _ _ hnd⟩
      · rw [hfmt] at hl; cases hl
      · rw [hfmt] at hh; cases hh
    · subst he
      have hardr : hardFmt r.format = true := by
        rw [hfmt]
        exact hIhard (i, d) (mem_of_alookup hd)
      have hsi : alookup s.inodes i = some d := by
        have h1 := hkino hardr
        rw [hino] at h1
        rw [h1]
        exact hd
      have hlch := @lchmod_node_some true s k r.mode i d halk hsi
      rw [hlch] at hstep
      cases hstep
      refine ⟨⟨fun hdir => ?_, fun hl => ?_, fun _ => ?_⟩,
        fun k' _ => rfl, fun i' hni' => ?_, rfl, hnd⟩
      · rw [hdir] at hardr; cases hardr
      · rw [hl] at hardr; cases hardr
      · refine ⟨by rw [halk, hino], d.size, ?_, fun hreg => ?_⟩
        · show alookup (upsert s.inodes i { d with mode := r.mode }) r.inode = _
          rw [hino, alookup_upsert_self]
          rw [hfmt]
        · have : d.format = Format.REG := by rw [← hfmt, hreg]
          exact (hsz this).symm
      · show alookup (upsert s.inodes i { d with mode := r.mode }) i' = _
        have hne : i' ≠ i := by
          intro hc
          exact hni' ⟨hardr, by rw [hino, hc]⟩
        exact alookup_upsert_ne _ _ _ _ hne
  | false =>
    rw [hpe] at hcr
    simp only [Bool.false_eq_true, if_false] at hcr
    cases halk : alookup s.entries k with
    | some e =>
      exfalso
      have hlx : lexists s k = true := by unfold lexists; rw [halk]; rfl
      split at hcr
      · rw [hlx] at hcr
        simp only [if_true] at hcr
        cases hcr
      · split at hcr
        · cases hcr
        · rw [hlx] at hcr
          simp only [if_true] at hcr
          cases hcr
      · split at hcr
        · cases hcr
        · rw [hlx] at hcr
          simp only [if_true] at hcr
          cases hcr
    | none =>
      have hlx : lexists s k = false := by unfold lexists; rw [halk]; rfl
      split at hcr
      · rename_i hfmt
        rw [hlx] at hcr
        simp only [Bool.false_eq_true, if_false] at hcr
        cases hcr
        have hself : alookup (upsert s.entries k (FSEntry.dir 511)) k =
            some (FSEntry.dir 511) := alookup_upsert_self _ _ _
        simp only [lchmod, hself] at hstep
        cases hstep
        refine ⟨⟨fun _ => alookup_upsert_self _ _ _, fun hl => ?_, fun hh => ?_⟩,
          fun k' hk' => ?_, fun i _ => rfl, rfl,
          upsert_keys_nodup _ _ (upsert_keys_nodup _ _ hnd)⟩
        · rw [hfmt] at hl; cases hl
        · rw [hfmt] at hh; cases hh
        · rw [alookup_upsert_ne _ _ _ _ hk', alookup_upsert_ne _ _ _ _ hk']
      · rename_i hfmt
        obtain ⟨t, hsym⟩ : ∃ t, r.symlink = some t := by
          have hsh := hshape (k, r) hmemS
          unfold recShape at hsh
          rw [hfmt] at hsh
          cases hs : r.symlink with
          | none => rw [hs] at hsh; cases hsh
          | some t => exact ⟨t, rfl⟩
        rw [hsym, hlx] at hcr
        simp only [Bool.false_eq_true, if_false] at hcr
        cases hcr
        have hself : alookup (upsert s.entries k (FSEntry.symlink t 511)) k =
            some (FSEntry.symlink t 511) := alookup_upsert_self _ _ _
        simp only [lchmod, hself, if_true] at hstep
        cases hstep
        refine ⟨⟨fun hdd => ?_, fun _ => ⟨t, hsym, alookup_upsert_self _ _ _⟩,
            fun hh => ?_⟩,
          fun k' hk' => ?_, fun i _ => rfl, rfl,
          upsert_keys_nodup _ _ (upsert_keys_nodup _ _ hnd)⟩
        · rw [hfmt] at hdd; cases hdd
        · rw [hfmt] at hh; cases hh
        · rw [alookup_upsert_ne _ _ _ _ hk', alookup_upsert_ne _ _ _ _ hk']
      · rename_i hfv hne1 hne2
        have hardr : hardFmt r.format = true := by
          cases hf : r.format with
          | DIR => exact absurd hf hne1
          | LNK => exact absurd hf hne2
          | BLK => rfl
          | CHR => rfl
          | FIFO => rfl
          | REG => rfl
          | SOCK => rfl
        have hia := hint (k, r) hmemS
        unfold intactAt at hia
        simp only [hardr, if_true] at hia
        cases hss : alookup fs.snapStore r.inode with
        | none =>
          cases hfd : alookup fs.inodes r.inode <;> simp [hss, hfd] at hia
        | some ino =>
        cases hfd : alookup fs.inodes r.inode with
        | none => simp [hss, hfd] at hia
        | some d =>
        simp only [hss, hfd, Bool.and_eq_true, decide_eq_true_eq] at hia
        obtain ⟨⟨hinoeq, hfmteq⟩, hszif⟩ := hia
        subst hinoeq
        have hsc : alookup s.snapStore r.inode = some r.inode := by
          rw [hstore]
          exact hss
        simp only [hsc, hlx, Bool.false_eq_true, if_false] at hcr
        cases hcr
        have hself : alookup (upsert s.entries k (FSEntry.node r.inode)) k =
            some (FSEntry.node r.inode) := alookup_upsert_self _ _ _
        have hent2 : alookup
            ({ s with entries := upsert s.entries k (FSEntry.node r.inode) } : FS).entries
            k = some (FSEntry.node r.inode) := hself
        have hsi : alookup
            ({ s with entries := upsert s.entries k (FSEntry.node r.inode) } : FS).inodes
            r.inode = some d := by
          show alookup s.inodes r.inode = some d
          rw [hkino hardr, hfd]
        rw [lchmod_node_some hent2 hsi] at hstep
        cases hstep
        refine ⟨⟨fun hdd => ?_, fun hll => ?_, fun _ => ?_⟩,
          fun k' hk' => ?_, fun i' hni' => ?_, rfl, ?_⟩
        · rw [hdd] at hardr; cases hardr
        · rw [hll] at hardr; cases hardr
        · refine ⟨hself, d.size, ?_, fun hreg => ?_⟩
          · show alookup (upsert s.inodes r.inode { d with mode := r.mode }) r.inode = _
            rw [alookup_upsert_self]
            have hdval : ({ d with mode := r.mode } : InodeData) =
                ⟨r.format, d.size, r.mode⟩ := by
              rw [← hfmteq]
            rw [hdval]
          · rw [if_pos hreg] at hszif
            exact of_decide_eq_true hszif
        · show alookup (upsert s.entries k (FSEntry.node r.inode)) k' = _
          exact alookup_upsert_ne _ _ _ _ hk'
        · show alookup (upsert s.inodes r.inode { d with mode := r.mode }) i' = _
          exact alookup_upsert_ne _ _ _ _ (fun hc => hni' ⟨hardr, hc.symm⟩)
        · exact upsert_keys_nodup _ _ hnd

/-- Phase 2 of a restore, run over distinct snapshot keys whose entries
either survived phase 1 or are absent: on success every record has been
realized, and no other path, inode or backup is touched. -/
theorem phase2Loop_restore {fs fs1 : FS} {S : List (String × SnapRecord)}
    (hshape : ∀ p ∈ S, recShape p.2 = true)
    (hinj : ∀ p ∈ S, ∀ q ∈ S, sameHardInode p.2 q.2 = true → p.1 = q.1)
    (hint : intact fs S)
    (hIhard : ∀ q ∈ fs.inodes, hardFmt q.2.format = true)
    (hSnd : (S.map Prod.fst).Nodup)
    (hsurv : ∀ k e, alookup fs1.entries k = some e →
      alookup fs.entries k = some e ∧
      ∃ r, alookup S k = some r ∧
        ((∃ m, e = .dir m ∧ r.format = .DIR) ∨
         (∃ t m, e = .symlink t m ∧ r.format = .LNK ∧ r.symlink = some t) ∨
         (∃ i d, e = .node i ∧ alookup fs.inodes i = some d ∧ r.format = d.format ∧
           r.inode = i ∧ (d.format = .REG → r.size = d.size)))) :
    ∀ (R : List (String × SnapRecord)) (s fs' : FS),
    phase2Loop true s R = .ok fs' →
    (∀ p ∈ R, p ∈ S) →
    ((R.map Prod.fst).Nodup) →
    (∀ p ∈ R, alookup s.entries p.1 = alookup fs1.entries p.1) →
    (∀ p ∈ R, hardFmt p.2.format = true →
      alookup s.inodes p.2.inode = alookup fs.inodes p.2.inode) →
    s.snapStore = fs.snapStore →
    (s.entries.map Prod.fst).Nodup →
    (∀ p ∈ R, restoredAt fs' p.1 p.2) ∧
    (∀ k, k ∉ R.map Prod.fst → alookup fs'.entries k = alookup s.entries k) ∧
    (∀ i, (∀ p ∈ R, hardFmt p.2.format = true → p.2.inode ≠ i) →
      alookup fs'.inodes i = alookup s.inodes i) ∧
    fs'.snapStore = s.snapStore ∧
    (fs'.entries.map Prod.fst).Nodup
  | [], s, fs', h, _, _, _, _, _, hnd => by
    unfold phase2Loop at h
    cases h
    exact ⟨fun p hp => absurd hp (List.not_mem_nil p), fun k _ => rfl,
      fun i _ => rfl, rfl, hnd⟩
  | (k, r) :: rest, s, fs', h, hsub, hndR, hunt, hino, hstore, hnd => by
    unfold phase2Loop at h
    cases hstep : phase2step true s (k, r) with
    | error e =>
      rw [hstep] at h
      cases h
    | ok s3 =>
    rw [hstep] at h
    rw [List.map_cons, List.nodup_cons] at hndR
    obtain ⟨hkrest, hndrest⟩ := hndR
    obtain ⟨hres, hent3, hino3, hstore3, hnd3⟩ :=
      phase2step_restore hshape hint hIhard hSnd hsurv hstep
        (hsub (k, r) (List.mem_cons_self _ _))
        (hunt (k, r) (List.mem_cons_self _ _))
        (fun hh => hino (k, r) (List.mem_cons_self _ _) hh)
        hstore hnd
    obtain ⟨ihres, ihent, ihino, ihstore, ihnd⟩ :=
      phase2Loop_restore hshape hinj hint hIhard hSnd hsurv rest s3 fs' h
        (fun p hp => hsub p (List.mem_cons_of_mem _ hp))
        hndrest
        (fun p hp => by
          have hmem : p.1 ∈ rest.map Prod.fst := List.mem_map_of_mem Prod.fst hp
          rw [hent3 p.1 (fun hc => hkrest (hc ▸ hmem))]
          exact hunt p (List.mem_cons_of_mem _ hp))
        (fun p hp hh => by
          have h2 := hino3 p.2.inode (by
            rintro ⟨hhr, hieq⟩
            have hsame : sameHardInode r p.2 = true := by
              unfold sameHardInode
              rw [hhr, hh, hieq]
              simp
            have heq := hinj (k, r) (hsub (k, r) (List.mem_cons_self _ _)) p
              (hsub p (List.mem_cons_of_mem _ hp)) hsame
            have hmem : p.1 ∈ rest.map Prod.fst := List.mem_map_of_mem Prod.fst hp
            rw [← heq] at hmem
            exact hkrest hmem)
          rw [h2]
          exact hino p (List.mem_cons_of_mem _ hp) hh)
        (hstore3.trans hstore)
        hnd3
    refine ⟨?_, ?_, ?_, ihstore.trans hstore3, ihnd⟩
    · intro p hp
      rcases List.mem_cons.mp hp with rfl | hp'
      · refine restoredAt_congr hres (ihent k hkrest) ?_
        intro hh
        apply ihino r.inode
        intro q hq hhq hqeq
        have hsame : sameHardInode q.2 r = true := by
          unfold sameHardInode
          rw [hhq, hh, hqeq]
          simp
        have heq := hinj q (hsub q (List.mem_cons_of_mem _ hq)) (k, r)
          (hsub (k, r) (List.mem_cons_self _ _)) hsame
        have hmem : q.1 ∈ rest.map Prod.fst := List.mem_map_of_mem Prod.fst hq
        rw [heq] at hmem
        exact hkrest hmem
      · exact ihres p hp'
    · intro k' hk'
      rw [List.map_cons, List.mem_cons] at hk'
      push_neg at hk'
      rw [ihent k' hk'.2, hent3 k' hk'.1]
    · intro i hi
      have h1 := ihino i (fun p hp hh => hi p (List.mem_cons_of_mem _ hp) hh)
      have h2 := hino3 i (by
        rintro ⟨hhr, hieq⟩
        exact hi (k, r) (List.mem_cons_self _ _) hhr hieq)
      rw [h1, h2]

theorem phase1Loop_fields (snap : List (String × SnapRecord)) :
    ∀ (items : List (String × SnapRecord)) (s : FS) (acc : List String),
    (phase1Loop snap s acc items).1.inodes = s.inodes ∧
    (phase1Loop snap s acc items).1.snapStore = s.snapStore
  | [], s, acc => ⟨rfl, rfl⟩
  | (key, record) :: rest, s, acc => by
    unfold phase1Loop
    split
    · split
      · exact phase1Loop_fields snap rest (trashItem s key) (acc ++ [key])
      · exact phase1Loop_fields snap rest s acc
    · exact phase1Loop_fields snap rest s acc

/-- When a filesystem realizes a snapshot pointwise (directories for `DIR`
records, links with the recorded target for `LNK` records, hardlinks for
the rest, nothing elsewhere), `os.path.isdir` resolution coincides with
resolution inside the snapshot. -/
theorem isDirFollow_eq_snapIsDir {s : FS} {S : List (String × SnapRecord)}
    (hn : ∀ p, alookup S p = none → alookup s.entries p = none)
    (hs : ∀ p r, alookup S p = some r →
      (r.format = .DIR → ∃ m, alookup s.entries p = some (.dir m)) ∧
      (r.format = .LNK → ∃ t m, r.symlink = some t ∧
        alookup s.entries p = some (.symlink t m)) ∧
      (hardFmt r.format = true → ∃ i, alookup s.entries p = some (.node i))) :
    ∀ (fuel : Nat) (p : String), isDirFollow s fuel p = snapIsDir S fuel p
  | 0, _ => rfl
  | fuel + 1, p => by
    unfold isDirFollow snapIsDir
    cases halS : alookup S p with
    | none =>
      simp only [hn p halS, halS]
    | some r =>
      obtain ⟨h1, h2, h3⟩ := hs p r halS
      cases hf : r.format with
      | DIR =>
        obtain ⟨m, hm⟩ := h1 hf
        simp only [hm, halS, hf]
      | LNK =>
        obtain ⟨t, m, ht, hm⟩ := h2 hf
        simp only [hm, halS, hf, ht]
        exact isDirFollow_eq_snapIsDir hn hs fuel t
      | BLK =>
        obtain ⟨i, hm⟩ := h3 (by rw [hf]; rfl)
        simp only [hm, halS, hf]
      | CHR =>
        obtain ⟨i, hm⟩ := h3 (by rw [hf]; rfl)
        simp only [hm, halS, hf]
      | FIFO =>
        obtain ⟨i, hm⟩ := h3 (by rw [hf]; rfl)
        simp only [hm, halS, hf]
      | REG =>
        obtain ⟨i, hm⟩ := h3 (by rw [hf]; rfl)
        simp only [hm, halS, hf]
      | SOCK =>
        obtain ⟨i, hm⟩ := h3 (by rw [hf]; rfl)
        simp only [hm, halS, hf]

/-- Claim C3 (amended): for a well-formed context and a well-formed
snapshot whose hardlink backups are still intact (each backed-up inode is
still referenced by its `inode_snapshots` link and carries the recorded
format and, for regular files, the recorded size — the guarantee in-place
modification of a hardlinked file destroys), if `restore_snapshot`
succeeds then a fresh `scan_directory` with the same exclusions equals the
snapshot exactly at every key, recorded modes included. -/
theorem claim_C3_restore_exact {fs : FS} {S : List (String × SnapRecord)} {fs' : FS}
    {tr : List String}
    (hwf : wfFS fs) (hS : wfSnap S) (hint : intact fs S)
    (hres : restore_snapshot true S fs = .ok (fs', tr)) :
    ∀ k, alookup (scan_directory fs' defaultExcludePaths) k = alookup S k := by
  obtain ⟨hSnd, hshape, hinj, hSrsv, hlink⟩ := hS
  have hsurv := survivor_spec hwf hshape
  obtain ⟨hnd, hndI, hEok, hNinj, hrsv, hIh⟩ := hwf
  unfold restore_snapshot at hres
  cases hloop : phase2Loop true (phase1 S fs).1 (sortByKey S) with
  | error e =>
    simp only [hloop] at hres
    cases hres
  | ok fs2 =>
  simp only [hloop] at hres
  cases hres
  have hfields := phase1Loop_fields S (sortByKey (scan_directory fs defaultExcludePaths)) fs []
  have hino1 : (phase1 S fs).1.inodes = fs.inodes := by
    unfold phase1
    exact hfields.1
  have hstore1 : (phase1 S fs).1.snapStore = fs.snapStore := by
    unfold phase1
    exact hfields.2
  have hsub1 : (phase1 S fs).1.entries.Sublist fs.entries := by
    unfold phase1
    exact phase1Loop_entries_sublist S _ fs []
  have hnd1 : ((phase1 S fs).1.entries.map Prod.fst).Nodup := (hsub1.map Prod.fst).nodup hnd
  have hnone1 : ∀ k, alookup S k = none → alookup (phase1 S fs).1.entries k = none := by
    intro k hk
    cases hc : alookup (phase1 S fs).1.entries k with
    | none => rfl
    | some e =>
      obtain ⟨-, r, hSk, -⟩ := hsurv k e hc
      rw [hk] at hSk
      cases hSk
  have hperm2 := List.perm_insertionSort (fun a b : String × SnapRecord => a.1 ≤ b.1) S
  have hndsort : ((sortByKey S).map Prod.fst).Nodup :=
    ((hperm2.map Prod.fst).nodup_iff).mpr hSnd
  obtain ⟨hresAll, hentF, hinoF, hstoreF, hndF⟩ :=
    phase2Loop_restore hshape hinj hint hIh hSnd hsurv (sortByKey S) (phase1 S fs).1 fs'
      hloop
      (fun p hp => hperm2.subset hp)
      hndsort
      (fun p _ => rfl)
      (fun p _ _ => by rw [hino1])
      hstore1
      hnd1
  have hrest : ∀ p ∈ S, restoredAt fs' p.1 p.2 := fun p hp =>
    hresAll p (hperm2.mem_iff.mpr hp)
  have hnone2 : ∀ p, alookup S p = none → alookup fs'.entries p = none := by
    intro p hk
    have hknot : p ∉ (sortByKey S).map Prod.fst := by
      intro hmem
      rw [List.mem_map] at hmem
      obtain ⟨q, hq, hq1⟩ := hmem
      have hqS : q ∈ S := hperm2.subset hq
      have hsome := alookup_isSome_of_mem (show (q.1, q.2) ∈ S from hqS)
      rw [hq1, hk] at hsome
      cases hsome
    rw [hentF p hknot]
    exact hnone1 p hk
  have hdirEq := @isDirFollow_eq_snapIsDir fs' S hnone2 (fun p r hr => by
    obtain ⟨hD, hL, hH⟩ := hrest (p, r) (mem_of_alookup hr)
    exact ⟨fun hf => ⟨r.mode, hD hf⟩,
      fun hf => (hL hf).elim fun t ht => ⟨t, r.mode, ht.1, ht.2⟩,
      fun hf => ⟨r.inode, (hH hf).1⟩⟩)
  intro k
  have hscan := alookup_scan defaultExcludePaths hndF k
  cases halS : alookup S k with
  | none =>
    rw [hscan, hnone2 k halS]
  | some r =>
    have hmemS : (k, r) ∈ S := mem_of_alookup halS
    obtain ⟨hD, hL, hH⟩ := hrest (k, r) hmemS
    have hkexcl : k ∉ defaultExcludePaths := hSrsv (k, r) hmemS
    have hsh := hshape (k, r) hmemS
    have hlk := hlink (k, r) hmemS
    rcases r with ⟨rf, rm, rs, ri, rsl⟩
    cases rf with
    | DIR =>
      have hent := hD rfl
      obtain ⟨hs0, hi0, hsym0⟩ : rs = 0 ∧ ri = 0 ∧ rsl = none := by
        simpa [recShape] using hsh
      subst hs0
      subst hi0
      subst hsym0
      rw [hscan]
      simp only [hent, walkIsDir, if_true]
      rw [if_neg hkexcl]
      rfl
    | LNK =>
      obtain ⟨t, ht, hent⟩ := hL rfl
      subst ht
      obtain ⟨hi0, hs0⟩ : ri = 0 ∧ rs = t.length := by
        simpa [recShape] using hsh
      subst hi0
      subst hs0
      have hsnapdir : snapIsDir S symlinkFuel t = false := by
        simpa [linkTargetOk] using hlk
      rw [hscan]
      simp only [hent, walkIsDir]
      rw [hdirEq symlinkFuel t, hsnapdir]
      simp only [Bool.false_eq_true, if_false, stat_item]
    | REG =>
      obtain ⟨hent, sz, hino, hszr⟩ := hH rfl
      have hsym0 : rsl = none := by simpa [recShape] using hsh
      subst hsym0
      have hsz := hszr rfl
      subst hsz
      rw [hscan]
      simp only [hent, walkIsDir]
      simp only [Bool.false_eq_true, if_false, stat_item, hino]
      simp
    | BLK =>
      obtain ⟨hent, sz, hino, hszr⟩ := hH rfl
      obtain ⟨hsym0, hs0⟩ : rsl = none ∧ rs = 0 := by simpa [recShape] using hsh
      subst hsym0
      subst hs0
      rw [hscan]
      simp only [hent, walkIsDir]
      simp only [Bool.false_eq_true, if_false, stat_item, hino]
      simp
    | CHR =>
      obtain ⟨hent, sz, hino, hszr⟩ := hH rfl
      obtain ⟨hsym0, hs0⟩ : rsl = none ∧ rs = 0 := by simpa [recShape] using hsh
      subst hsym0
      subst hs0
      rw [hscan]
      simp only [hent, walkIsDir]
      simp only [Bool.false_eq_true, if_false, stat_item, hino]
      simp
    | FIFO =>
      obtain ⟨hent, sz, hino, hszr⟩ := hH rfl
      obtain ⟨hsym0, hs0⟩ : rsl = none ∧ rs = 0 := by simpa [recShape] using hsh
      subst hsym0
      subst hs0
      rw [hscan]
      simp only [hent, walkIsDir]
      simp only [Bool.false_eq_true, if_false, stat_item, hino]
      simp
    | SOCK =>
      obtain ⟨hent, sz, hino, hszr⟩ := hH rfl
      obtain ⟨hsym0, hs0⟩ : rsl = none ∧ rs = 0 := by simpa [recShape] using hsh
      subst hsym0
      subst hs0
      rw [hscan]
      simp only [hent, walkIsDir]
      simp only [Bool.false_eq_true, if_false, stat_item, hino]
      simp

theorem claim_C3_witness :
    wfFS exFS3snapped ∧ wfSnap exSnap3 ∧ intact exFS3snapped exSnap3 ∧
    (∀ k, alookup (scan_directory exFS3restored defaultExcludePaths) k =
      alookup exSnap3 k) :=
  ⟨by decide, by decide, by decide,
    claim_C3_restore_exact (by decide) (by decide) (by decide)
      (show restore_snapshot true exSnap3 exFS3snapped = .ok (exFS3restored, [])
        from rfl)⟩

end Pmatic
